import Mathlib

/-!
Shallow embedding of the openblok falling-block playfield engine
(`src/game/components/Well.cpp`) and piece supply (`src/game/PieceQueue.cpp`),
together with theorems settling the specification claims.

Conventions of the embedding:
* Durations (C++ `Duration`, a chrono integer type) are modelled as `Int`.
  `GameState::frame_duration` is a global supplied by the application, so the
  frame-stepping functions take it as an explicit parameter `fd`.
* The board `matrix` (a 2D array of `std::unique_ptr<Mino>`) is modelled as a
  total function `Int → Int → Option Nat`; only rows `0..21` and columns
  `0..9` are ever read or written by the embedded operations, matching the
  fixed 22x10 array in the source.
* C++ `unsigned` arithmetic that can wrap is modelled explicitly:
  `usub32` models unsigned subtraction (used in `placeByWallKick`'s
  `active_piece_y - floor`), and the row loop of `hasCollisionAt` checks
  `offset_y + 3` for 32-bit wrap-around exactly where the C++ loop condition
  `row <= offset_y + 3` would wrap.
* Observer callbacks are modelled by appending the notified `WellEvent`s to a
  log field `emitted`.
-/

set_option maxRecDepth 4000

namespace OpenBlok

/-- The seven tetromino types (`Piece::Type`). -/
inductive PieceType where
  | I | J | L | O | S | T | Z
deriving DecidableEq, Repr

/-- Modelled from the spec: `Piece::allTypes`, the list of all 7 canonical
piece types (the definition lives in `Piece.h`, which is not part of the
sources; the spec fixes only that there are exactly 7 types). -/
def allTypes : List PieceType :=
  [PieceType.I, PieceType.J, PieceType.L, PieceType.O,
   PieceType.S, PieceType.T, PieceType.Z]

/-- The input button identities used by the well (`InputType`). -/
inductive InputType where
  | LEFT | RIGHT | UP | DOWN | A | B | GAME_HARDDROP | GAME_HOLD
deriving DecidableEq, Repr

/-- A normalized input event: a button together with its press/release state
(`InputEvent`, where `down() = true` means press). -/
structure InputEvent where
  type : InputType
  down : Bool
deriving DecidableEq, Repr

/-- Events emitted by the well (`WellEvent::Type`, with the `count` payload of
`LINE_CLEAR`). -/
inductive WellEvent where
  | PIECE_LOCKED
  | LINE_CLEAR (count : Nat)
  | NEXT_REQUESTED
  | HOLD_REQUESTED
deriving DecidableEq, Repr

/-- A 4x4 occupancy grid of a piece at one rotation: cell `(row, col)` is
`some v` when a mino with visual value `v` occupies it (`Piece::currentGrid`,
a 4x4 array of `std::unique_ptr<Mino>`). -/
abbrev PieceGrid := Nat → Nat → Option Nat

/-- Modelled from the spec: a piece instance (`Piece`, defined in `Piece.h` /
`Piece.cpp`, which are not part of the sources). Per the spec's data model it
is "a type tag (one of 7 canonical shapes), a current rotation state (0-3),
and a derived 4x4 occupancy mask per rotation". -/
structure Piece where
  type : PieceType
  grids : Fin 4 → PieceGrid
  rot : Fin 4

/-- The 4x4 grid of the piece's current rotation (`Piece::currentGrid`). -/
def Piece.currentGrid (p : Piece) : PieceGrid := p.grids p.rot

/-- Modelled from the spec: `Piece::rotateCW` advances the rotation state
cyclically (rotation states 0-3). -/
def Piece.rotateCW (p : Piece) : Piece := { p with rot := p.rot + 1 }

/-- Modelled from the spec: `Piece::rotateCCW` steps the rotation state back
cyclically (rotation states 0-3). -/
def Piece.rotateCCW (p : Piece) : Piece := { p with rot := p.rot - 1 }

/-- The board buffer: row (`0..21`, row 0 at the top, rows 0-1 hidden) and
column (`0..9`) to optional mino value. -/
abbrev BoardMatrix := Int → Int → Option Nat

/-- Modelled from the spec: the lock-delay countdown (`Countdown`, defined in
`game/Timing.h`, not part of the sources). Per the spec it is "a monotonic
countdown (duration remaining) plus a configured interval" that can be
stopped, unpaused and updated, firing its completion action on expiry. -/
structure Countdown where
  duration : Int
  remaining : Int
  running : Bool
deriving DecidableEq, Repr

/-- The full playfield state (the data members of class `Well`). -/
structure Well where
  matrix : BoardMatrix
  gameover : Bool
  active_piece : Option Piece
  active_piece_x : Int
  active_piece_y : Nat
  ghost_piece_y : Nat
  gravity_delay : Int
  gravity_timer : Int
  horizontal_delay_normal : Int
  horizontal_delay_turbo : Int
  horizontal_delay_current : Int
  horizontal_timer : Int
  das_timer : Int
  softdrop_delay : Int
  softdrop_timer : Int
  rotation_delay : Int
  rotation_timer : Int
  harddrop_locks_instantly : Bool
  lock_infinity : Bool
  skip_gravity : Bool
  keystates : InputType → Bool
  previous_keystates : InputType → Bool
  pending_cleared_rows : Finset Int
  lock_countdown : Countdown
  animations : List Int
  blocking_anims : List Int
  emitted : List WellEvent

/-- Board width (`matrix[0].size() = 10`). -/
def wellWidth : Int := 10

/-- Board height including hidden buffer rows (`matrix.size() = 22`). -/
def wellHeight : Nat := 22

/-- The value of one board probe in `Well::hasCollisionAt`: the C++ code
initializes `board_has_mino_here = true` and overwrites it with the actual
cell only when `row < matrix.size() && cell >= 0 && cell < matrix[0].size()`. -/
def boardOccAt (m : BoardMatrix) (row : Nat) (cell : Int) : Bool :=
  if row < wellHeight ∧ 0 ≤ cell ∧ cell < wellWidth then
    (m (row : Int) cell).isSome
  else
    true

/-- `Well::hasCollisionAt`: overlay the piece's 4x4 grid on the board at
`(offset_x, offset_y)` and report whether any occupied grid cell meets an
occupied (or out-of-board) probe. The outer C++ loop
`for (row = offset_y; row <= offset_y + 3; row++)` runs zero times when
`offset_y + 3` wraps around 32-bit unsigned arithmetic, hence the guard. -/
def hasCollisionAt (m : BoardMatrix) (g : PieceGrid) (offset_x : Int)
    (offset_y : Nat) : Bool :=
  if offset_y + 3 < 4294967296 then
    (List.range 4).any fun gy =>
      (List.range 4).any fun gx =>
        (g gy gx).isSome && boardOccAt m (offset_y + gy) (offset_x + gx)
  else
    false

/-- Unsigned 32-bit subtraction, modelling `unsigned y - unsigned f` for
`f < 2^32` (used by `placeByWallKick`'s floor kick on `active_piece_y`). -/
def usub32 (a b : Nat) : Nat := (a + 4294967296 - b) % 4294967296

/-- The loop body of `Well::calculateGhostOffset`:
`while (ghost + 1 < matrix.size() && !hasCollisionAt(x, ghost + 1)) ghost++;`.
The fuel `22` dominates the number of iterations, since the loop only runs
while `ghost + 1 < 22`. -/
def ghostLoop (m : BoardMatrix) (g : PieceGrid) (x : Int) :
    Nat → Nat → Nat
  | 0, gy => gy
  | fuel + 1, gy =>
      if gy + 1 < wellHeight ∧ ¬ hasCollisionAt m g x (gy + 1) then
        ghostLoop m g x fuel (gy + 1)
      else
        gy

/-- `Well::calculateGhostOffset`: recompute the lowest row reachable by pure
vertical drop from the current position. -/
def calculateGhostOffset (s : Well) : Well :=
  match s.active_piece with
  | none => s
  | some p =>
      let gy := ghostLoop s.matrix p.currentGrid s.active_piece_x wellHeight
        s.active_piece_y
      { s with ghost_piece_y := gy }

/-- `Countdown::stop` as used by the well: the countdown is stopped and its
remaining time reset to the full duration (modelled from the spec: timers are
"Reset or paused by specific transitions"). -/
def countdownStop (s : Well) : Well :=
  { s with lock_countdown :=
      { s.lock_countdown with running := false,
                              remaining := s.lock_countdown.duration } }

/-- `Countdown::unpause`: the countdown (re)starts running, keeping its
remaining time (modelled from the spec). -/
def countdownUnpause (s : Well) : Well :=
  { s with lock_countdown := { s.lock_countdown with running := true } }

/-- `Well::notify`: synchronously deliver an event to the registered
observers, modelled by appending it to the event log. -/
def notifyEvent (ev : WellEvent) (s : Well) : Well :=
  { s with emitted := s.emitted ++ [ev] }

/-- `Well::isOnGround`: collision one row below the active piece. The C++
asserts an active piece; when there is none the probe is never made. -/
def isOnGround (s : Well) : Bool :=
  match s.active_piece with
  | none => false
  | some p =>
      hasCollisionAt s.matrix p.currentGrid s.active_piece_x
        (s.active_piece_y + 1)

/-- The bookkeeping shared by every successful lateral or rotational move:
recompute the ghost offset and, if `lock_infinity` is set, stop the
lock-delay countdown. -/
def afterMoveSuccess (s : Well) : Well :=
  let s := calculateGhostOffset s
  if s.lock_infinity then countdownStop s else s

/-- `Well::resetDAS`: restore the auto-repeat accumulation counter and the
non-turbo repeat delay. -/
def resetDAS (s : Well) : Well :=
  { s with das_timer := s.horizontal_delay_normal,
           horizontal_delay_current := s.horizontal_delay_normal }

/-- `Well::resetInput`: `resetDAS` plus clearing every tracked keystate. -/
def resetInput (s : Well) : Well :=
  { resetDAS s with keystates := fun _ => false }

/-- The 16 `(row, cell)` loop indices of `Well::lockAndReleasePiece`, in the
row-major order the C++ nested loops visit them. -/
def lockCells : List (Nat × Nat) :=
  (List.range 4).flatMap fun row => (List.range 4).map fun cell => (row, cell)

/-- The skip condition of `Well::lockAndReleasePiece`: the C++ test
`y + row >= matrix.size() || x + cell >= matrix.at(0).size() ||
x + int(cell) < 0`, where the first two comparisons happen in unsigned
32-bit arithmetic (`unsigned + unsigned` and `int + unsigned`), so both
sums wrap modulo `2^32` before being compared against the board bounds. -/
def lockSkip (x : Int) (y : Nat) (rc : Nat × Nat) : Bool :=
  (y + rc.1) % 4294967296 ≥ wellHeight ∨
    (x + rc.2) % 4294967296 ≥ wellWidth ∨ x + rc.2 < 0

/-- A lock-loop iteration performs a write: the grid cell is occupied and the
skip condition does not hold. -/
def lockWrites (x : Int) (y : Nat) (g : PieceGrid) (rc : Nat × Nat) : Bool :=
  ! lockSkip x y rc && (g rc.1 rc.2).isSome

/-- The board position a lock-loop iteration writes to: the C++ indexes
`matrix[active_piece_y + row][active_piece_x + cell]` are the same unsigned
sums as in the skip test, so both coordinates wrap modulo `2^32`. -/
def lockTarget (x : Int) (y : Nat) (rc : Nat × Nat) : Int × Int :=
  ((((y + rc.1) % 4294967296 : Nat) : Int), (x + (rc.2 : Int)) % 4294967296)

/-- One iteration of the lock loop: transfer the piece's grid cell into the
board when the cell is occupied and not skipped. -/
def lockStep (x : Int) (y : Nat) (g : PieceGrid) (m : BoardMatrix)
    (rc : Nat × Nat) : BoardMatrix :=
  if lockWrites x y g rc then
    fun r c =>
      if r = (lockTarget x y rc).1 ∧ c = (lockTarget x y rc).2 then g rc.1 rc.2
      else m r c
  else
    m

/-- The board after the transfer loop of `Well::lockAndReleasePiece`. -/
def lockMatrix (x : Int) (y : Nat) (g : PieceGrid) (m : BoardMatrix) :
    BoardMatrix :=
  lockCells.foldl (lockStep x y g) m

/-- Modelled from the spec: the lifetime of a `CellLockAnim` (defined under
`animations/`, not part of the sources); only its positivity matters. -/
def cellLockAnimDuration : Int := 1

/-- Modelled from the spec: the lifetime of a `LineClearAnim` (defined under
`animations/`, not part of the sources); only its positivity matters. -/
def lineClearAnimDuration : Int := 1

/-- Whether a board row is completely filled (the inner loop of
`Well::checkLineclear`). -/
def fullRow (m : BoardMatrix) (row : Int) : Bool :=
  (List.range 10).all fun c => (m row (c : Int)).isSome

/-- The pending set after the detection scan of `Well::checkLineclear`: the
old pending set plus every fully filled row of `0..21`. -/
def pendingAfterDetect (s : Well) : Finset Int :=
  s.pending_cleared_rows ∪
    ((Finset.Icc (0 : Int) 21).filter fun r => fullRow s.matrix r)

/-- The board with every cell of the given rows visually emptied (the
`cell = nullptr` loop of `Well::checkLineclear`). -/
def clearedBoard (pending : Finset Int) (m : BoardMatrix) : BoardMatrix :=
  fun r c => if r ∈ pending ∧ 0 ≤ c ∧ c < wellWidth then none else m r c

/-- `Well::checkLineclear`: detect full rows, add them to the pending set,
visually empty them, stage a blocking clear animation for visible rows, and
reset all input state when something cleared. -/
def checkLineclear (s : Well) : Well :=
  if pendingAfterDetect s = ∅ then
    { s with pending_cleared_rows := pendingAfterDetect s }
  else
    resetInput
      { s with pending_cleared_rows := pendingAfterDetect s,
               matrix := clearedBoard (pendingAfterDetect s) s.matrix,
               blocking_anims := s.blocking_anims ++
                 List.replicate
                   (((pendingAfterDetect s).filter fun r => 2 ≤ r).card)
                   lineClearAnimDuration }

/-- `Well::lockAndReleasePiece`: copy the piece into the board (skipping
out-of-board cells), stage non-blocking lock animations for visible rows,
release the piece, stop the lock countdown, emit `PIECE_LOCKED`, then run
line-clear detection. -/
def lockAndReleasePiece (s : Well) : Well :=
  match s.active_piece with
  | none => s
  | some p =>
      let g := p.currentGrid
      let x := s.active_piece_x
      let y := s.active_piece_y
      let animCells := lockCells.filter fun rc =>
        lockWrites x y g rc ∧ 2 ≤ (y + rc.1) % 4294967296
      let s := { s with matrix := lockMatrix x y g s.matrix,
                        animations := s.animations ++
                          List.replicate animCells.length
                            cellLockAnimDuration,
                        active_piece := none }
      let s := countdownStop s
      let s := notifyEvent WellEvent.PIECE_LOCKED s
      checkLineclear s

/-- `Well::lockThenRequestNext`: lock the piece, and if the game is not over
and no blocking animation is pending, request the next piece. -/
def lockThenRequestNext (s : Well) : Well :=
  if ¬ (lockAndReleasePiece s).gameover ∧
      (lockAndReleasePiece s).blocking_anims = [] then
    notifyEvent WellEvent.NEXT_REQUESTED (lockAndReleasePiece s)
  else
    lockAndReleasePiece s

/-- `Well::moveDownNow`: step down if possible; when already resting with
instant hard-drop locking disabled and the lock countdown running, perform
the on-demand ("sonic drop") lock. -/
def moveDownNow (s : Well) : Well :=
  if s.active_piece.isNone ∨ s.active_piece_y + 1 ≥ wellHeight then s
  else if ¬ isOnGround s then
    { s with active_piece_y := s.active_piece_y + 1 }
  else if ¬ s.harddrop_locks_instantly ∧ s.lock_countdown.running then
    lockThenRequestNext s
  else
    s

/-- `Well::moveLeftNow`. -/
def moveLeftNow (s : Well) : Well :=
  match s.active_piece with
  | none => s
  | some p =>
      if s.active_piece_x - 1 ≤ -3 then s
      else if ¬ hasCollisionAt s.matrix p.currentGrid (s.active_piece_x - 1)
          s.active_piece_y then
        afterMoveSuccess { s with active_piece_x := s.active_piece_x - 1 }
      else
        s

/-- `Well::moveRightNow`. -/
def moveRightNow (s : Well) : Well :=
  match s.active_piece with
  | none => s
  | some p =>
      if s.active_piece_x + 1 ≥ wellWidth then s
      else if ¬ hasCollisionAt s.matrix p.currentGrid (s.active_piece_x + 1)
          s.active_piece_y then
        afterMoveSuccess { s with active_piece_x := s.active_piece_x + 1 }
      else
        s

/-- `Well::applyGravity`. -/
def applyGravity (s : Well) : Well := moveDownNow s

/-- One floor level of the wall-kick search of `Well::placeByWallKick`:
try +1 column, then -1 column, then (for the I piece only, and only when the
offset stays inside `[0, width)`) +2 and -2 columns; the row offset is the
32-bit unsigned difference `active_piece_y - floor`. -/
def tryKickAtFloor (m : BoardMatrix) (g : PieceGrid) (isI : Bool) (x : Int)
    (y : Nat) (floor : Nat) : Option (Int × Nat) :=
  let fy := usub32 y floor
  if ¬ hasCollisionAt m g (x + 1) fy then some (x + 1, fy)
  else if ¬ hasCollisionAt m g (x - 1) fy then some (x - 1, fy)
  else if isI then
    if x + 2 < wellWidth ∧ ¬ hasCollisionAt m g (x + 2) fy then
      some (x + 2, fy)
    else if 0 ≤ x - 2 ∧ ¬ hasCollisionAt m g (x - 2) fy then
      some (x - 2, fy)
    else
      none
  else
    none

/-- `Well::placeByWallKick` as a function of the inputs it reads: the first
successful candidate position, trying floors `0, 1` (plus `2` for the I
piece) in order, or `none` when the search is exhausted. -/
def placeByWallKick (m : BoardMatrix) (g : PieceGrid) (isI : Bool) (x : Int)
    (y : Nat) : Option (Int × Nat) :=
  (List.range (if isI then 3 else 2)).findSome? (tryKickAtFloor m g isI x y)

/-- `Well::rotateCWNow`: rotate clockwise, fall back to the wall-kick search
on collision, and revert the rotation when that also fails. -/
def rotateCWNow (s : Well) : Well :=
  match s.active_piece with
  | none => s
  | some p =>
      let p' := p.rotateCW
      let s' := { s with active_piece := some p' }
      if hasCollisionAt s.matrix p'.currentGrid s.active_piece_x
          s.active_piece_y then
        match placeByWallKick s.matrix p'.currentGrid
            (p'.type = PieceType.I) s.active_piece_x s.active_piece_y with
        | none => { s' with active_piece := some p'.rotateCCW }
        | some xy =>
            afterMoveSuccess
              { s' with active_piece_x := xy.1, active_piece_y := xy.2 }
      else
        afterMoveSuccess s'

/-- `Well::rotateCCWNow`: the mirror image of `rotateCWNow`. -/
def rotateCCWNow (s : Well) : Well :=
  match s.active_piece with
  | none => s
  | some p =>
      let p' := p.rotateCCW
      let s' := { s with active_piece := some p' }
      if hasCollisionAt s.matrix p'.currentGrid s.active_piece_x
          s.active_piece_y then
        match placeByWallKick s.matrix p'.currentGrid
            (p'.type = PieceType.I) s.active_piece_x s.active_piece_y with
        | none => { s' with active_piece := some p'.rotateCW }
        | some xy =>
            afterMoveSuccess
              { s' with active_piece_x := xy.1, active_piece_y := xy.2 }
      else
        afterMoveSuccess s'

/-- `Well::hardDrop`: teleport to the ghost position, take the last step
down, and lock instantly when so configured. -/
def hardDrop (s : Well) : Well :=
  let s := { s with active_piece_y := s.ghost_piece_y }
  let s := moveDownNow s
  if s.harddrop_locks_instantly then lockThenRequestNext s else s

/-- `Well::updateKeystate`: remember the previous keystates, then apply the
frame's press/release events to the current keystates in order. -/
def updateKeystate (events : List InputEvent) (s : Well) : Well :=
  let s := { s with previous_keystates := s.keystates }
  events.foldl
    (fun s e =>
      { s with keystates := fun k => if k = e.type then e.down else s.keystates k })
    s

/-- One step of the press/release event loop at the top of
`Well::handleKeys`: a press of UP or hard-drop performs the hard drop and
marks gravity skipped; a press of hold emits `HOLD_REQUESTED` and marks
gravity skipped; a release of a horizontal direction resets DAS. -/
def handleKeyEvent (s : Well) (e : InputEvent) : Well :=
  if e.down then
    match e.type with
    | InputType.UP => { hardDrop s with skip_gravity := true }
    | InputType.GAME_HARDDROP => { hardDrop s with skip_gravity := true }
    | InputType.GAME_HOLD =>
        { notifyEvent WellEvent.HOLD_REQUESTED s with skip_gravity := true }
    | _ => s
  else
    match e.type with
    | InputType.LEFT => resetDAS s
    | InputType.RIGHT => resetDAS s
    | _ => s

/-- The rotation phase of `Well::handleKeys`: advance the rotation throttle
and, when exactly one rotation button is held and the throttle expired,
rotate and re-arm the throttle. -/
def rotationPhase (fd : Int) (s0 : Well) : Well :=
  let s : Well := { s0 with rotation_timer := s0.rotation_timer - fd }
  if s.keystates InputType.A ≠ s.keystates InputType.B ∧
      s.rotation_timer ≤ 0 then
    let s : Well := if s.keystates InputType.A then rotateCCWNow s
                    else rotateCWNow s
    { s with rotation_timer := s.rotation_delay }
  else
    s

/-- The horizontal auto-repeat phase of `Well::handleKeys`: advance the
repeat countdown and, when it expired and exactly one direction is held,
move, accumulate DAS, and re-arm the countdown with the current (normal or
turbo) delay. -/
def horizontalPhase (fd : Int) (s0 : Well) : Well :=
  let s : Well := { s0 with horizontal_timer := s0.horizontal_timer - fd }
  if s.horizontal_timer ≤ 0 then
    if s.keystates InputType.LEFT ≠ s.keystates InputType.RIGHT then
      let s : Well := if s.keystates InputType.LEFT then moveLeftNow s
                      else moveRightNow s
      let s : Well := { s with das_timer :=
                                 s.das_timer - s.horizontal_delay_normal }
      let s : Well := if s.das_timer < 0 then
                        { s with horizontal_delay_current :=
                                   s.horizontal_delay_turbo }
                      else s
      { s with horizontal_timer := s.horizontal_delay_current }
    else
      s
  else
    s

/-- The soft-drop phase of `Well::handleKeys`: advance the soft-drop
countdown and, while DOWN is held and it expired, step the piece down, mark
gravity skipped, and re-arm the countdown. -/
def softdropPhase (fd : Int) (s0 : Well) : Well :=
  let s : Well := { s0 with softdrop_timer := s0.softdrop_timer - fd }
  if s.keystates InputType.DOWN = true ∧ s.softdrop_timer ≤ 0 then
    let s : Well := moveDownNow s
    { s with skip_gravity := true, softdrop_timer := s.softdrop_delay }
  else
    s

/-- `Well::handleKeys`: initialize the gravity-skip flag from the held DOWN
key, run the event loop, then the rotation, horizontal auto-repeat and soft
drop phases, in the fixed source order. `fd` is `GameState::frame_duration`. -/
def handleKeys (fd : Int) (events : List InputEvent) (s : Well) : Well :=
  let sk := s.keystates InputType.DOWN && s.previous_keystates InputType.DOWN
  softdropPhase fd (horizontalPhase fd (rotationPhase fd
    (events.foldl handleKeyEvent { s with skip_gravity := sk })))

/-- The accumulation loop of `Well::updateGravity`:
`while (gravity_timer >= gravity_delay) { gravity_timer -= gravity_delay;
if (!skip_gravity) applyGravity(); }`. The fuel passed by `updateGravity`
dominates the iteration count whenever `gravity_delay` is positive (the
constructor and `setGravity` keep it positive). -/
def gravityLoop : Nat → Well → Well
  | 0, s => s
  | fuel + 1, s =>
      if s.gravity_delay ≤ s.gravity_timer then
        let s' := { s with gravity_timer := s.gravity_timer - s.gravity_delay }
        gravityLoop fuel (if s'.skip_gravity then s' else applyGravity s')
      else
        s

/-- `Well::updateGravity`: accrue the frame duration, then apply one downward
step per completed interval unless gravity is skipped this frame. -/
def updateGravity (fd : Int) (s : Well) : Well :=
  gravityLoop ((s.gravity_timer + fd).toNat + 1)
    { s with gravity_timer := s.gravity_timer + fd }

/-- `Countdown::update` as wired in the `Well` constructor: while running,
consume the frame duration and fire `lockThenRequestNext` on expiry
(modelled from the spec: the countdown "fires a lock transition on expiry";
`Countdown` lives in `game/Timing.h`, not part of the sources). -/
def countdownUpdate (fd : Int) (s : Well) : Well :=
  if s.lock_countdown.running then
    if s.lock_countdown.remaining - fd ≤ 0 then
      lockThenRequestNext (countdownStop s)
    else
      { s with lock_countdown :=
          { s.lock_countdown with
              remaining := s.lock_countdown.remaining - fd } }
  else
    s

/-- `Well::updateLockDelay`: unpause the countdown while resting, stop it
while airborne, then advance it. -/
def updateLockDelay (fd : Int) (s : Well) : Well :=
  countdownUpdate fd (if isOnGround s then countdownUnpause s
                      else countdownStop s)

/-- `Well::updateAnimations`: advance every animation by the frame duration
and drop the ones that finished (modelled from the spec: an animation handle
is "destroyed when their internal duration elapses"). -/
def tickAnims (fd : Int) (l : List Int) : List Int :=
  (l.map fun d => d - fd).filter fun d => 0 < d

/-- The `next_filled_row` search of `Well::removeEmptyRows`:
`next_filled_row = row; while (pending.count(next_filled_row))
next_filled_row--;`. The fuel `24` dominates the chain length because the
pending set only ever holds rows in `[0, 21]`. -/
def nextFilledRow (pending : Finset Int) : Nat → Int → Int
  | 0, r => r
  | fuel + 1, r =>
      if r ∈ pending then nextFilledRow pending fuel (r - 1) else r

/-- Swap two whole board rows (`matrix[row].swap(matrix[next_filled_row])`). -/
def swapRows (m : BoardMatrix) (a b : Int) : BoardMatrix :=
  fun r => if r = a then m b else if r = b then m a else m r

/-- The compaction loop of `Well::removeEmptyRows`, iterating
`row = matrix.size() .. 0` downwards; the fuel argument is `row + 1`. A
cleared row pulls down the nearest non-cleared row above it (by a swap) and
the vacated row is added to the pending set; the loop breaks when only
cleared rows remain above. -/
def compactFrom (m : BoardMatrix) (pending : Finset Int) :
    Nat → BoardMatrix × Finset Int
  | 0 => (m, pending)
  | i + 1 =>
      if (i : Int) ∈ pending then
        let nf := nextFilledRow pending 24 (i : Int)
        if nf < 0 then (m, pending)
        else compactFrom (swapRows m (i : Int) nf) (insert nf pending) i
      else
        compactFrom m pending i

/-- `Well::removeEmptyRows`: emit `LINE_CLEAR` with the number of pending
rows, compact the board bottom-up, and clear the pending set. -/
def removeEmptyRows (s : Well) : Well :=
  let s := notifyEvent (WellEvent.LINE_CLEAR s.pending_cleared_rows.card) s
  let mp := compactFrom s.matrix s.pending_cleared_rows (wellHeight + 1)
  { s with matrix := mp.1, pending_cleared_rows := ∅ }

/-- The tail of `Well::update`: once input is processed, if a piece is still
active, run the gravity and lock-delay timers. -/
def updateTail (fd : Int) (t : Well) : Well :=
  if t.active_piece.isNone then t
  else updateLockDelay fd (updateGravity fd t)

/-- `Well::update`: animations first, then the game-over guard, then pending
line-clear finalization (waiting for blocking animations), and otherwise
input processing followed by the gravity and lock-delay timers. -/
def update (fd : Int) (events : List InputEvent) (s : Well) : Well :=
  let s := { s with animations := tickAnims fd s.animations,
                    blocking_anims := tickAnims fd s.blocking_anims }
  if s.gameover then s
  else if s.pending_cleared_rows ≠ ∅ then
    if s.blocking_anims = [] then
      let s := removeEmptyRows s
      let s := countdownStop s
      notifyEvent WellEvent.NEXT_REQUESTED s
    else
      s
  else
    updateTail fd (handleKeys fd events (updateKeystate events s))

/-- `Well::addPiece`: spawn at column 3, probing rows 2, 1, 0 in that order
(the C++ loop `for (y = 3; y > 0;) if (!hasCollisionAt(x, --y)) ...`); if
every probe collides, lock the piece at the final position `(3, 0)` and set
the game-over flag. -/
def addPiece (p : Piece) (s : Well) : Well :=
  let g := p.currentGrid
  let s := { s with active_piece := some p, active_piece_x := 3 }
  if ¬ hasCollisionAt s.matrix g 3 2 then
    calculateGhostOffset { s with active_piece_y := 2 }
  else if ¬ hasCollisionAt s.matrix g 3 1 then
    calculateGhostOffset { s with active_piece_y := 1 }
  else if ¬ hasCollisionAt s.matrix g 3 0 then
    calculateGhostOffset { s with active_piece_y := 0 }
  else
    { lockAndReleasePiece { s with active_piece_y := 0 } with gameover := true }

/-- The `Well` constructor, with `fd` standing for `frame_duration_60Hz`. -/
def mkWell (fd : Int) : Well where
  matrix := fun _ _ => none
  gameover := false
  active_piece := none
  active_piece_x := 0
  active_piece_y := 0
  ghost_piece_y := 0
  gravity_delay := fd * 64
  gravity_timer := 0
  horizontal_delay_normal := fd * 14
  horizontal_delay_turbo := fd * 4
  horizontal_delay_current := fd * 14
  horizontal_timer := 0
  das_timer := fd * 14
  softdrop_delay := fd * 64 / 20
  softdrop_timer := 0
  rotation_delay := fd * 12
  rotation_timer := 0
  harddrop_locks_instantly := true
  lock_infinity := true
  skip_gravity := false
  keystates := fun _ => false
  previous_keystates := fun _ => false
  pending_cleared_rows := ∅
  lock_countdown := ⟨fd * 30, fd * 30, false⟩
  animations := []
  blocking_anims := []
  emitted := []

/-!
The piece supply (`src/game/PieceQueue.cpp`). `std::random_shuffle` over
`possible_pieces` produces some permutation of the 7 types; the randomness is
modelled by an oracle `bags : Nat → List PieceType` giving the outcome of the
`n`-th shuffle, with the fairness hypothesis `(bags n).Perm allTypes` where a
theorem needs it.
-/

/-- The state of a `PieceQueue`: the configured preview size, the queue of
upcoming piece types, and how many shuffles have been consumed so far. -/
structure PieceQueue where
  displayed_piece_count : Nat
  piece_queue : List PieceType
  bag_idx : Nat
deriving DecidableEq, Repr

/-- `PieceQueue::generate_pieces`: shuffle the 7 types and append them to the
queue. -/
def generate_pieces (bags : Nat → List PieceType) (s : PieceQueue) :
    PieceQueue :=
  { s with piece_queue := s.piece_queue ++ bags s.bag_idx,
           bag_idx := s.bag_idx + 1 }

/-- The `PieceQueue` constructor: record the preview size and generate one
bag. -/
def mkPieceQueue (bags : Nat → List PieceType) (displayed : Nat) :
    PieceQueue :=
  generate_pieces bags
    { displayed_piece_count := displayed, piece_queue := [], bag_idx := 0 }

/-- `PieceQueue::next`: pop the front piece, then refill the queue with a
fresh bag when its length would drop to or below the preview size. Popping
an empty queue is undefined behaviour in the C++ (`front` on an empty
deque); it is modelled by `none`. -/
def PieceQueue.next (bags : Nat → List PieceType) (s : PieceQueue) :
    Option PieceType × PieceQueue :=
  match s.piece_queue with
  | [] => (none, s)
  | p :: rest =>
      let s := { s with piece_queue := rest }
      let s := if s.piece_queue.length ≤ s.displayed_piece_count then
                 generate_pieces bags s
               else s
      (some p, s)

/-- The queue state after `n` calls to `next()` on a freshly constructed
queue. -/
def queueStates (bags : Nat → List PieceType) (displayed : Nat) :
    Nat → PieceQueue
  | 0 => mkPieceQueue bags displayed
  | n + 1 => (PieceQueue.next bags (queueStates bags displayed n)).2

/-- The piece type returned by the `(n+1)`-st call to `next()`. -/
def drawAt (bags : Nat → List PieceType) (displayed : Nat) (n : Nat) :
    Option PieceType :=
  (PieceQueue.next bags (queueStates bags displayed n)).1

/-- The per-floor wall-kick shift candidates, in source order: `+1, -1`,
plus `+2, -2` for the I piece. -/
def floorCands (isI : Bool) (f : Nat) : List (Int × Nat) :=
  if isI then [(1, f), (-1, f), (2, f), (-2, f)] else [(1, f), (-1, f)]

/-- The full ordered wall-kick candidate list `(column shift, floor)`: floors
`0, 1` (and `2` for the I piece), each with its shift candidates. This is
also the candidate order stated by the spec. -/
def kickCandidates (isI : Bool) : List (Int × Nat) :=
  (List.range (if isI then 3 else 2)).flatMap (floorCands isI)

/-- The bounds guard the source places on the `±2` shifts of the I piece:
`x + 2 < width` for the right double shift and `x - 2 >= 0` for the left
double shift; single shifts are unguarded. -/
def kickGuard (x : Int) (dx : Int) : Bool :=
  if dx = 2 then x + 2 < wellWidth
  else if dx = -2 then 0 ≤ x - 2
  else true

/-- A kick candidate's target position is collision-free. -/
def kickFree (m : BoardMatrix) (g : PieceGrid) (x : Int) (y : Nat)
    (dc : Int × Nat) : Bool :=
  ! hasCollisionAt m g (x + dc.1) (usub32 y dc.2)

/-- A kick candidate passes its bounds guard and is collision-free. -/
def kickOk (m : BoardMatrix) (g : PieceGrid) (x : Int) (y : Nat)
    (dc : Int × Nat) : Bool :=
  kickGuard x dc.1 && kickFree m g x y dc

/-- The wall-kick search as the claim states it: the first candidate of
`kickCandidates` whose target position is collision-free, with no bounds
guards (spec-side definition, for comparison with `placeByWallKick`). -/
def claimedKick (m : BoardMatrix) (g : PieceGrid) (isI : Bool) (x : Int)
    (y : Nat) : Option (Int × Nat) :=
  ((kickCandidates isI).find? (kickFree m g x y)).map
    fun dc => (x + dc.1, usub32 y dc.2)

/-- The wall-kick search with the source's bounds guards: the first candidate
of `kickCandidates` that passes its guard and is collision-free. -/
def guardedKick (m : BoardMatrix) (g : PieceGrid) (isI : Bool) (x : Int)
    (y : Nat) : Option (Int × Nat) :=
  ((kickCandidates isI).find? (kickOk m g x y)).map
    fun dc => (x + dc.1, usub32 y dc.2)

/-- A board used for the wall-kick counterexample: columns 1, 3 and 4 are
filled on rows 3-8, column 2 on rows 5-8, column 0 is free. -/
def exKickBoard : BoardMatrix := fun r c =>
  if (c = 1 ∨ c = 3 ∨ c = 4) ∧ 3 ≤ r ∧ r ≤ 8 then some 1
  else if c = 2 ∧ 5 ≤ r ∧ r ≤ 8 then some 1
  else none

/-- A vertical I-piece grid: mask column 2 occupied in all four mask rows. -/
def exVertIGrid : PieceGrid := fun r c =>
  if c = 2 ∧ r < 4 then some 1 else none

/-- An entirely filled board. -/
def exFullBoard : BoardMatrix := fun _ _ => some 1

/-- A piece whose every rotation grid has the single cell `(1, 1)` occupied. -/
def exDotPiece : Piece :=
  ⟨PieceType.T, fun _ r c => if r = 1 ∧ c = 1 then some 1 else none, 0⟩

/-- A playfield state holding `exDotPiece` at `(3, 5)` over a full board. -/
def exStuckWell : Well :=
  { mkWell 1 with matrix := exFullBoard, active_piece := some exDotPiece,
                  active_piece_x := 3, active_piece_y := 5 }


/-- A well with two pending cleared rows (20, 21), a marker row at 19, no
blocking animations and the game running. -/
def exClearWell : Well :=
  { mkWell 1 with
      pending_cleared_rows := {20, 21},
      matrix := fun r c => if r = 19 ∧ 0 ≤ c ∧ c < 10 then some 7 else none }

/-- The concatenation of the first `k` generated bags. -/
def flatBags (bags : Nat → List PieceType) (k : Nat) : List PieceType :=
  (List.range k).flatMap bags

/-- A concrete bag oracle: the first shuffle yields the types in canonical
order, every later shuffle yields them rotated by one. Both outcomes are
legal results of a fair shuffle. -/
def exBags : Nat → List PieceType := fun i =>
  if i = 0 then allTypes
  else
    [PieceType.Z, PieceType.I, PieceType.J, PieceType.L, PieceType.O,
     PieceType.S, PieceType.T]

/-- The DAS fields are in their reset (non-turbo) configuration. -/
def dasReset (s : Well) : Prop :=
  s.das_timer = s.horizontal_delay_normal ∧
    s.horizontal_delay_current = s.horizontal_delay_normal

/-- Fields never modified by the piece-locking call chain (used to carry
facts across the timer phases of a frame). -/
def lockPres (s t : Well) : Prop :=
  t.active_piece_x = s.active_piece_x ∧
    t.active_piece_y = s.active_piece_y ∧
    t.skip_gravity = s.skip_gravity ∧
    t.horizontal_timer = s.horizontal_timer ∧
    t.horizontal_delay_normal = s.horizontal_delay_normal ∧
    t.gravity_delay = s.gravity_delay ∧
    (dasReset s → dasReset t)

/-- Fields never modified by a downward move (the piece-locking fields except
the row offset). -/
def dropPres (s t : Well) : Prop :=
  t.active_piece_x = s.active_piece_x ∧
    t.skip_gravity = s.skip_gravity ∧
    t.horizontal_timer = s.horizontal_timer ∧
    t.horizontal_delay_normal = s.horizontal_delay_normal ∧
    t.gravity_delay = s.gravity_delay ∧
    (dasReset s → dasReset t)

/-- Fields never modified by the rotation and horizontal phases of
`handleKeys`. -/
def phasePres (s t : Well) : Prop :=
  t.skip_gravity = s.skip_gravity ∧
    t.keystates = s.keystates ∧
    t.softdrop_timer = s.softdrop_timer ∧
    t.softdrop_delay = s.softdrop_delay
/-- A well holding a falling piece with the gravity interval one frame from
completing, every input countdown still pending, and no keys held. -/
def c4HoldWell : Well :=
  { mkWell 1 with active_piece := some exDotPiece, active_piece_x := 3,
                  active_piece_y := 5, gravity_timer := 63,
                  softdrop_timer := 10, horizontal_timer := 10,
                  rotation_timer := 10 }

/-- A well holding a freely falling piece with DOWN held on consecutive
frames. -/
def c4DownWell : Well :=
  { mkWell 1 with active_piece := some exDotPiece, active_piece_x := 3,
                  active_piece_y := 5,
                  keystates := fun k => decide (k = InputType.DOWN),
                  previous_keystates := fun k => decide (k = InputType.DOWN) }

/-- A well holding a freely falling piece with no keys held. -/
def c9Well : Well :=
  { mkWell 1 with active_piece := some exDotPiece, active_piece_x := 3,
                  active_piece_y := 5 }

/-- A well whose piece row offset is the unsigned wrap value `2^32 - 1`, as
produced by the wall kick's unsigned `y - floor` underflow at `y = 0`. -/
def c10WrapWell : Well :=
  { mkWell 1 with active_piece := some exDotPiece, active_piece_x := 3,
                  active_piece_y := 4294967295 }

/-!
Theorems.
-/

/-- A board probe of `hasCollisionAt` reports a mino exactly when the cell is
below the board, outside the playable columns, or occupied. -/
theorem boardOccAt_eq_true (m : BoardMatrix) (row : Nat) (cell : Int) :
    boardOccAt m row cell = true ↔
      (wellHeight ≤ row ∨ cell < 0 ∨ wellWidth ≤ cell ∨
        (m (row : Int) cell).isSome = true) := by
  unfold boardOccAt wellHeight wellWidth
  split_ifs with hc
  · constructor
    · intro hm
      exact Or.inr (Or.inr (Or.inr hm))
    · rintro (h | h | h | h)
      · omega
      · omega
      · omega
      · exact h
  · push_neg at hc
    constructor
    · intro _
      by_cases h1 : row < 22
      · by_cases h2 : (0 : Int) ≤ cell
        · exact Or.inr (Or.inr (Or.inl (hc h1 h2)))
        · exact Or.inr (Or.inl (by omega))
      · exact Or.inl (by omega)
    · intro _
      rfl

/-- Finding in a concatenation searches the left part first. -/
theorem find?_append_eq {α : Type} (p : α → Bool) (l1 l2 : List α) :
    (l1 ++ l2).find? p =
      match l1.find? p with
      | some a => some a
      | none => l2.find? p := by
  induction l1 with
  | nil => rfl
  | cons a l ih =>
      by_cases h : p a
      · simp [List.find?, h]
      · simp only [List.cons_append, List.find?, h]
        exact ih

/-- One floor of `placeByWallKick` agrees with a guarded first-fit search
over that floor's candidate shifts. -/
theorem tryKickAtFloor_eq_find? (m : BoardMatrix) (g : PieceGrid)
    (isI : Bool) (x : Int) (y : Nat) (f : Nat) :
    tryKickAtFloor m g isI x y f =
      ((floorCands isI f).find? (kickOk m g x y)).map
        fun dc => (x + dc.1, usub32 y dc.2) := by
  cases isI
  · cases h1 : hasCollisionAt m g (x + 1) (usub32 y f) <;>
      cases h2 : hasCollisionAt m g (x - 1) (usub32 y f) <;>
      simp [tryKickAtFloor, floorCands, kickOk, kickFree, kickGuard,
        h1, h2, List.find?, ← sub_eq_add_neg]
  · cases h1 : hasCollisionAt m g (x + 1) (usub32 y f) <;>
      cases h2 : hasCollisionAt m g (x - 1) (usub32 y f) <;>
      cases h3 : hasCollisionAt m g (x + 2) (usub32 y f) <;>
      cases h4 : hasCollisionAt m g (x - 2) (usub32 y f) <;>
      by_cases hg3 : x + 2 < wellWidth <;>
      by_cases hg4 : (0 : Int) ≤ x - 2 <;>
      simp [tryKickAtFloor, floorCands, kickOk, kickFree, kickGuard,
        h1, h2, h3, h4, hg3, hg4, List.find?, ← sub_eq_add_neg]

/-- C2 (amended form): `placeByWallKick` is the guarded first-fit search over
the ordered candidate list: for each floor level (the same row, then one row
higher, and for the I piece a third, two rows higher), shift `+1`, else `-1`,
else (I piece only, and only when the shifted offset stays within
`[0, width)`) `+2`, else `-2`; the first candidate passing its guard and
collision-free is accepted as the piece's new position. -/
theorem C2_wallkick_order (m : BoardMatrix) (g : PieceGrid) (isI : Bool)
    (x : Int) (y : Nat) :
    placeByWallKick m g isI x y = guardedKick m g isI x y := by
  unfold placeByWallKick guardedKick kickCandidates
  generalize List.range (if isI then 3 else 2) = fs
  induction fs with
  | nil => rfl
  | cons f fs ih =>
      simp only [List.findSome?_cons, List.flatMap_cons, find?_append_eq,
        tryKickAtFloor_eq_find?]
      cases hf : (floorCands isI f).find? (kickOk m g x y) with
      | none => simpa using ih
      | some dc => simp

/-- C2 counterexample: with the vertical I grid at `(x, y) = (0, 5)` on
`exKickBoard`, the naive position collides and the `-2` shift of floor 0 is
collision-free (its occupied cells land in free column 0), so the claimed
search accepts `(-2, 5)`; but the source skips that candidate because of the
`x - 2 >= 0` guard and the whole search fails, so the first collision-free
offset/floor combination is not accepted. -/
theorem C2_wallkick_counterexample :
    hasCollisionAt exKickBoard exVertIGrid 0 5 = true ∧
      claimedKick exKickBoard exVertIGrid true 0 5 = some (-2, 5) ∧
      placeByWallKick exKickBoard exVertIGrid true 0 5 = none := by
  refine ⟨by decide, by decide, by decide⟩

/-- Rotating clockwise then counterclockwise restores the piece. -/
theorem Piece.rotateCCW_rotateCW (p : Piece) : p.rotateCW.rotateCCW = p := by
  unfold Piece.rotateCW Piece.rotateCCW
  simp

/-- Rotating counterclockwise then clockwise restores the piece. -/
theorem Piece.rotateCW_rotateCCW (p : Piece) : p.rotateCCW.rotateCW = p := by
  unfold Piece.rotateCW Piece.rotateCCW
  simp

/-- C3: a rotation attempt in either direction, considered on its own,
whose naive placement collides and whose every wall-kick candidate also
collides leaves the entire playfield state unchanged: the rotation state
reverts, the position is unmodified, and the board buffer is untouched. -/
theorem C3_failed_rotation_is_noop (s : Well) (p : Piece)
    (hp : s.active_piece = some p) :
    (hasCollisionAt s.matrix p.rotateCW.currentGrid s.active_piece_x
        s.active_piece_y = true →
      placeByWallKick s.matrix p.rotateCW.currentGrid
        (p.rotateCW.type = PieceType.I) s.active_piece_x s.active_piece_y
          = none →
      rotateCWNow s = s) ∧
      (hasCollisionAt s.matrix p.rotateCCW.currentGrid s.active_piece_x
          s.active_piece_y = true →
        placeByWallKick s.matrix p.rotateCCW.currentGrid
          (p.rotateCCW.type = PieceType.I) s.active_piece_x s.active_piece_y
            = none →
        rotateCCWNow s = s) := by
  constructor
  · intro hcw hkcw
    unfold rotateCWNow
    rw [hp]
    simp only [hcw, if_true, hkcw, Piece.rotateCCW_rotateCW]
    rw [← hp]
  · intro hccw hkccw
    unfold rotateCCWNow
    rw [hp]
    simp only [hccw, if_true, hkccw, Piece.rotateCW_rotateCCW]
    rw [← hp]

/-- Witness for `C3_failed_rotation_is_noop`: on a completely filled board
both rotation attempts fail outright and each, on its own, leaves the state
unchanged. -/
theorem C3_failed_rotation_is_noop_witness :
    rotateCWNow exStuckWell = exStuckWell ∧
      rotateCCWNow exStuckWell = exStuckWell :=
  ⟨(C3_failed_rotation_is_noop exStuckWell exDotPiece rfl).1 (by decide)
      (by decide),
   (C3_failed_rotation_is_noop exStuckWell exDotPiece rfl).2 (by decide)
      (by decide)⟩

/-- Witness for `C1_collision_spec`: a concrete one-cell piece over an empty
the piece's 4x4 mask, projected onto the board at the given offset, overlaps
an occupied board cell or falls outside the playable horizontal range or
below the board's bottom; occupied mask cells over empty in-bounds board
cells never collide, and when the full overlay has no such conflict the
function returns false. -/
theorem C1_collision_spec (m : BoardMatrix) (g : PieceGrid) (ox : Int)
    (oy : Nat) (h : oy + 3 < 4294967296) :
    hasCollisionAt m g ox oy = true ↔
      ∃ r < 4, ∃ c < 4, (g r c).isSome = true ∧
        (wellHeight ≤ oy + r ∨ ox + (c : Int) < 0 ∨ wellWidth ≤ ox + (c : Int) ∨
          (m ((oy + r : Nat) : Int) (ox + (c : Int))).isSome = true) := by
  unfold hasCollisionAt
  rw [if_pos h]
  simp only [List.any_eq_true, List.mem_range, Bool.and_eq_true,
    boardOccAt_eq_true]

/-- Witness for `C1_collision_spec`: a concrete one-cell piece over an empty
board at `(3, 20)` satisfies the characterization. -/
theorem C1_collision_spec_witness :
    20 + 3 < 4294967296 ∧
      (hasCollisionAt (fun _ _ => none)
          (fun r c => if r = 0 ∧ c = 0 then some 1 else none) 3 20 = true ↔
        ∃ r < 4, ∃ c < 4,
          ((fun (r : Nat) (c : Nat) =>
              if r = 0 ∧ c = 0 then some 1 else none) r c).isSome = true ∧
          (wellHeight ≤ 20 + r ∨ (3 : Int) + (c : Int) < 0 ∨
            wellWidth ≤ (3 : Int) + (c : Int) ∨
            ((fun (_ : Int) (_ : Int) => (none : Option Nat))
                ((20 + r : Nat) : Int) ((3 : Int) + (c : Int))).isSome = true)) :=
  ⟨by decide,
    C1_collision_spec (fun _ _ => none)
      (fun r c => if r = 0 ∧ c = 0 then some 1 else none) 3 20 (by decide)⟩

/-- `checkLineclear` does not touch the active piece. -/
theorem checkLineclear_active_piece (s : Well) :
    (checkLineclear s).active_piece = s.active_piece := by
  unfold checkLineclear resetInput resetDAS
  split_ifs <;> rfl

/-- Locking with an active piece releases it. -/
theorem lockAndReleasePiece_releases (s : Well) (p : Piece)
    (hp : s.active_piece = some p) :
    (lockAndReleasePiece s).active_piece = none := by
  unfold lockAndReleasePiece
  rw [hp]
  rw [checkLineclear_active_piece]
  rfl

/-- C6: when `addPiece` finds no collision-free row in the permitted spawn
range (rows 2, 1, 0 at the fixed spawn column 3), the piece is locked into
the board immediately at its final colliding position `(3, 0)` and the state
machine transitions to the terminal game-over state. -/
theorem C6_spawn_exhausted_gameover (s : Well) (p : Piece)
    (h2 : hasCollisionAt s.matrix p.currentGrid 3 2 = true)
    (h1 : hasCollisionAt s.matrix p.currentGrid 3 1 = true)
    (h0 : hasCollisionAt s.matrix p.currentGrid 3 0 = true) :
    addPiece p s =
      { lockAndReleasePiece
          { s with active_piece := some p, active_piece_x := 3,
                   active_piece_y := 0 } with
        gameover := true } ∧
      (addPiece p s).gameover = true ∧
      (addPiece p s).active_piece = none := by
  have key : addPiece p s =
      { lockAndReleasePiece
          { s with active_piece := some p, active_piece_x := 3,
                   active_piece_y := 0 } with
        gameover := true } := by
    unfold addPiece
    simp [h2, h1, h0]
  refine ⟨key, ?_, ?_⟩
  · rw [key]
  · rw [key]
    show (lockAndReleasePiece _).active_piece = none
    exact lockAndReleasePiece_releases _ p rfl

/-- Witness for `C6_spawn_exhausted_gameover`: spawning onto a full board. -/
theorem C6_spawn_exhausted_gameover_witness :
    addPiece exDotPiece { mkWell 1 with matrix := exFullBoard } =
      { lockAndReleasePiece
          { { mkWell 1 with matrix := exFullBoard } with
            active_piece := some exDotPiece, active_piece_x := 3,
            active_piece_y := 0 } with
        gameover := true } ∧
      (addPiece exDotPiece { mkWell 1 with matrix := exFullBoard }).gameover
          = true ∧
      (addPiece exDotPiece
          { mkWell 1 with matrix := exFullBoard }).active_piece = none :=
  C6_spawn_exhausted_gameover { mkWell 1 with matrix := exFullBoard }
    exDotPiece (by decide) (by decide) (by decide)

/-- Membership in the lock loop's index list. -/
theorem mem_lockCells {rc : Nat × Nat} :
    rc ∈ lockCells ↔ rc.1 < 4 ∧ rc.2 < 4 := by
  obtain ⟨a, b⟩ := rc
  unfold lockCells
  simp [List.mem_flatMap]

/-- Distinct lock-loop indices (both inside the 4x4 mask) write to distinct
board positions: the two wrapped sums lie in windows of width 4, far below
the modulus, so the wrap is injective on them. -/
theorem lockTarget_inj (x : Int) (y : Nat) {a b : Nat × Nat}
    (ha1 : a.1 < 4) (ha2 : a.2 < 4) (hb1 : b.1 < 4) (hb2 : b.2 < 4)
    (hne : a ≠ b) : lockTarget x y a ≠ lockTarget x y b := by
  intro h
  apply hne
  unfold lockTarget at h
  rw [Prod.mk.injEq] at h
  obtain ⟨h1, h2⟩ := h
  have ha : (y + a.1) % 4294967296 = (y + b.1) % 4294967296 := by
    exact_mod_cast h1
  have hr1 : a.1 = b.1 := by omega
  have hr2 : a.2 = b.2 := by omega
  exact Prod.ext hr1 hr2

/-- The lock loop's index list is pairwise distinct, with every entry inside
the 4x4 mask. -/
theorem lockCells_bounds_pairwise :
    lockCells.Pairwise fun a b =>
      a.1 < 4 ∧ a.2 < 4 ∧ b.1 < 4 ∧ b.2 < 4 ∧ a ≠ b := by decide

/-- The lock loop's write targets are pairwise distinct. -/
theorem lockCells_pairwise (x : Int) (y : Nat) :
    lockCells.Pairwise fun a b => lockTarget x y a ≠ lockTarget x y b :=
  lockCells_bounds_pairwise.imp fun h =>
    lockTarget_inj x y h.1 h.2.1 h.2.2.1 h.2.2.2.1 h.2.2.2.2

/-- Pointwise value of a fold of lock writes with pairwise-distinct targets:
the first (hence only) index writing to the probed position decides it. -/
theorem foldl_lockStep_find? (x : Int) (y : Nat) (g : PieceGrid) (r c : Int) :
    ∀ L : List (Nat × Nat),
      (L.Pairwise fun a b => lockTarget x y a ≠ lockTarget x y b) →
      ∀ m : BoardMatrix,
        L.foldl (lockStep x y g) m r c =
          match L.find? (fun rc =>
              lockWrites x y g rc && ((r, c) = lockTarget x y rc)) with
          | some rc => g rc.1 rc.2
          | none => m r c := by
  intro L
  induction L with
  | nil => intro _ m; rfl
  | cons a L ih =>
      intro hdist m
      rw [List.pairwise_cons] at hdist
      obtain ⟨hhead, htail⟩ := hdist
      rw [List.foldl_cons, ih htail]
      by_cases hpa :
          (lockWrites x y g a && ((r, c) = lockTarget x y a)) = true
      · simp only [List.find?_cons, hpa]
        rw [Bool.and_eq_true, decide_eq_true_iff] at hpa
        obtain ⟨hw, ht⟩ := hpa
        cases hfl : List.find? (fun rc =>
            lockWrites x y g rc && ((r, c) = lockTarget x y rc)) L with
        | some rc =>
            exfalso
            have hmem := List.mem_of_find?_eq_some hfl
            have hrc := List.find?_some hfl
            rw [Bool.and_eq_true, decide_eq_true_iff] at hrc
            exact hhead rc hmem (ht ▸ hrc.2 ▸ rfl)
        | none =>
            unfold lockStep
            rw [if_pos hw, if_pos]
            exact ⟨congrArg Prod.fst ht, congrArg Prod.snd ht⟩
      · rw [Bool.not_eq_true] at hpa
        simp only [List.find?_cons, hpa]
        cases hfl : List.find? (fun rc =>
            lockWrites x y g rc && ((r, c) = lockTarget x y rc)) L with
        | some rc => rfl
        | none =>
            rw [Bool.and_eq_false_iff] at hpa
            unfold lockStep
            rcases hpa with hw | hd
            · rw [if_neg]
              rw [hw]
              exact Bool.false_ne_true
            · by_cases hw : lockWrites x y g a = true
              · rw [if_pos hw, if_neg]
                rintro ⟨hr1, hr2⟩
                rw [decide_eq_false_iff_not] at hd
                exact hd (Prod.ext hr1 hr2)
              · rw [if_neg hw]

/-- Pointwise characterization of the board produced by the transfer loop of
`lockAndReleasePiece`. -/
theorem lockMatrix_charac (x : Int) (y : Nat) (g : PieceGrid)
    (m : BoardMatrix) (r c : Int) :
    lockMatrix x y g m r c =
      match lockCells.find? (fun rc =>
          lockWrites x y g rc && ((r, c) = lockTarget x y rc)) with
      | some rc => g rc.1 rc.2
      | none => m r c :=
  foldl_lockStep_find? x y g r c lockCells (lockCells_pairwise x y) m

/-- An occupied, in-board grid cell is written by the lock loop. -/
theorem lockWrites_of_inbounds (x : Int) (y : Nat) (g : PieceGrid)
    (row col : Nat) (hg : (g row col).isSome = true)
    (hrow : y + row < wellHeight) (h0 : 0 ≤ x + (col : Int))
    (hw : x + (col : Int) < wellWidth) :
    lockWrites x y g (row, col) = true := by
  unfold lockWrites lockSkip wellHeight wellWidth at *
  rw [Bool.and_eq_true]
  refine ⟨?_, hg⟩
  rw [Bool.not_eq_true', decide_eq_false_iff_not]
  push_neg
  refine ⟨by omega, by omega, by omega⟩

/-- A write of the lock loop targets an in-board cell, provided the piece
column offset is in `int` range. -/
theorem lockTarget_inboard (x : Int) (y : Nat) (g : PieceGrid)
    (rc : Nat × Nat) (hc4 : rc.2 < 4)
    (hw : lockWrites x y g rc = true)
    (hx : -2147483648 ≤ x ∧ x < 2147483648) :
    0 ≤ (lockTarget x y rc).1 ∧ (lockTarget x y rc).1 < (wellHeight : Int) ∧
      0 ≤ (lockTarget x y rc).2 ∧ (lockTarget x y rc).2 < wellWidth := by
  unfold lockWrites lockSkip lockTarget wellHeight wellWidth at *
  rw [Bool.and_eq_true, Bool.not_eq_true', decide_eq_false_iff_not] at hw
  obtain ⟨hskip, _⟩ := hw
  push_neg at hskip
  obtain ⟨hr, hm, h0⟩ := hskip
  refine ⟨by omega, by omega, by omega, by omega⟩

/-- Outside the board, the transfer loop changes nothing. -/
theorem lockMatrix_out (x : Int) (y : Nat) (g : PieceGrid) (m : BoardMatrix)
    (r c : Int) (hx : -2147483648 ≤ x ∧ x < 2147483648)
    (hout : r < 0 ∨ (wellHeight : Int) ≤ r ∨ c < 0 ∨ wellWidth ≤ c) :
    lockMatrix x y g m r c = m r c := by
  rw [lockMatrix_charac]
  cases hfl : lockCells.find? (fun rc =>
      lockWrites x y g rc && ((r, c) = lockTarget x y rc)) with
  | none => rfl
  | some rc =>
      exfalso
      have hmem := List.mem_of_find?_eq_some hfl
      have hrc := List.find?_some hfl
      rw [Bool.and_eq_true, decide_eq_true_iff] at hrc
      obtain ⟨hw, ht⟩ := hrc
      have hb := lockTarget_inboard x y g rc (mem_lockCells.mp hmem).2 hw hx
      rw [← ht] at hb
      unfold wellHeight wellWidth at hb hout
      omega

/-- For out-of-board positions, `checkLineclear` changes nothing (its row
clearing only touches rows `0..21` and columns `0..9`). -/
theorem checkLineclear_matrix_out (s : Well) (r c : Int)
    (hpend : s.pending_cleared_rows = ∅)
    (hout : r < 0 ∨ (wellHeight : Int) ≤ r ∨ c < 0 ∨ wellWidth ≤ c) :
    (checkLineclear s).matrix r c = s.matrix r c := by
  unfold checkLineclear
  split_ifs with h
  · rfl
  · show (resetInput _).matrix r c = s.matrix r c
    unfold resetInput resetDAS clearedBoard
    show (if r ∈ pendingAfterDetect s ∧ 0 ≤ c ∧ c < wellWidth then none
          else s.matrix r c) = s.matrix r c
    rw [if_neg]
    rintro ⟨hr, hc0, hcw⟩
    unfold pendingAfterDetect at hr
    rw [hpend, Finset.empty_union, Finset.mem_filter, Finset.mem_Icc] at hr
    simp only [wellHeight, wellWidth] at *
    omega

/-- C10 (amended form): `lockAndReleasePiece` indexes the board with the
32-bit unsigned sums `y + row` and `x + cell`, so it never writes outside
the board buffer: a cell is skipped exactly when its wrapped row or wrapped
column falls outside the board (or `x + cell` is negative), every occupied
mask cell whose projection is in bounds is transferred by the lock loop
into the board cell at the piece's offset, positions no write targets are
left unchanged by the loop, and out-of-board positions are untouched even
after line-clear detection. At wrap states, however, content whose
unwrapped projected row lies outside the board is written at the wrapped
row rather than discarded (see the counterexample). -/
theorem C10_lock_never_writes_out (s : Well) (p : Piece)
    (hp : s.active_piece = some p)
    (hpend : s.pending_cleared_rows = ∅)
    (hx : -2147483648 ≤ s.active_piece_x ∧ s.active_piece_x < 2147483648) :
    (∀ row col : Nat, row < 4 → col < 4 →
        (p.currentGrid row col).isSome = true →
        s.active_piece_y + row < wellHeight →
        0 ≤ s.active_piece_x + (col : Int) →
        s.active_piece_x + (col : Int) < wellWidth →
        lockMatrix s.active_piece_x s.active_piece_y p.currentGrid s.matrix
            ((s.active_piece_y + row : Nat) : Int)
            (s.active_piece_x + (col : Int)) = p.currentGrid row col) ∧
      (∀ r c : Int,
        (∀ row < 4, ∀ col < 4,
            lockWrites s.active_piece_x s.active_piece_y p.currentGrid
              (row, col) = true →
            (r, c) ≠ lockTarget s.active_piece_x s.active_piece_y
              (row, col)) →
        lockMatrix s.active_piece_x s.active_piece_y p.currentGrid s.matrix
          r c = s.matrix r c) ∧
      (∀ r c : Int,
        r < 0 ∨ (wellHeight : Int) ≤ r ∨ c < 0 ∨ wellWidth ≤ c →
        (lockAndReleasePiece s).matrix r c = s.matrix r c) := by
  refine ⟨?_, ?_, ?_⟩
  · intro row col h4r h4c hg hrow hc0 hcw
    have hwri := lockWrites_of_inbounds s.active_piece_x s.active_piece_y
      p.currentGrid row col hg hrow hc0 hcw
    have heqt : ((((s.active_piece_y + row : Nat)) : Int),
        s.active_piece_x + (col : Int)) =
          lockTarget s.active_piece_x s.active_piece_y (row, col) := by
      unfold lockTarget
      dsimp only
      rw [Prod.mk.injEq]
      unfold wellHeight at hrow
      unfold wellWidth at hcw
      constructor <;> omega
    rw [lockMatrix_charac]
    cases hfl : lockCells.find? (fun rc =>
        lockWrites s.active_piece_x s.active_piece_y p.currentGrid rc &&
          ((((s.active_piece_y + row : Nat) : Int),
            s.active_piece_x + (col : Int)) =
              lockTarget s.active_piece_x s.active_piece_y rc)) with
    | none =>
        exfalso
        have hnone := List.find?_eq_none.mp hfl (row, col)
          (mem_lockCells.mpr ⟨h4r, h4c⟩)
        rw [Bool.and_eq_true, decide_eq_true_iff] at hnone
        exact hnone ⟨hwri, heqt⟩
    | some rc =>
        have hmem := mem_lockCells.mp (List.mem_of_find?_eq_some hfl)
        have hrc := List.find?_some hfl
        rw [Bool.and_eq_true, decide_eq_true_iff] at hrc
        obtain ⟨hw, ht⟩ := hrc
        have heq : rc = (row, col) := by
          by_contra hne
          exact lockTarget_inj s.active_piece_x s.active_piece_y
            hmem.1 hmem.2 h4r h4c hne (ht.symm.trans heqt)
        rw [heq]
  · intro r c hno
    rw [lockMatrix_charac]
    cases hfl : lockCells.find? (fun rc =>
        lockWrites s.active_piece_x s.active_piece_y p.currentGrid rc &&
          ((r, c) = lockTarget s.active_piece_x s.active_piece_y rc)) with
    | none => rfl
    | some rc =>
        exfalso
        have hmem := mem_lockCells.mp (List.mem_of_find?_eq_some hfl)
        have hrc := List.find?_some hfl
        rw [Bool.and_eq_true, decide_eq_true_iff] at hrc
        obtain ⟨hw, ht⟩ := hrc
        have hrc' : rc = (rc.1, rc.2) := rfl
        exact hno rc.1 hmem.1 rc.2 hmem.2 (hrc' ▸ hw) (hrc' ▸ ht)
  · intro r c hout
    unfold lockAndReleasePiece
    rw [hp]
    rw [checkLineclear_matrix_out]
    · exact lockMatrix_out s.active_piece_x s.active_piece_y p.currentGrid
        s.matrix r c hx hout
    · exact hpend
    · exact hout

/-- Witness for `C10_lock_never_writes_out`: the one-cell piece of
`exStuckWell` at `(3, 5)` transfers its cell to board position `(6, 4)`,
leaves a distant cell alone, and leaves the out-of-board column `-1`
alone. -/
theorem C10_lock_never_writes_out_witness :
    lockMatrix 3 5 exDotPiece.currentGrid exStuckWell.matrix
        ((5 + 1 : Nat) : Int) (3 + (1 : Int)) = exDotPiece.currentGrid 1 1 ∧
      lockMatrix 3 5 exDotPiece.currentGrid exStuckWell.matrix 0 0
        = exStuckWell.matrix 0 0 ∧
      (lockAndReleasePiece exStuckWell).matrix 0 (-1)
        = exStuckWell.matrix 0 (-1) := by
  have h := C10_lock_never_writes_out exStuckWell exDotPiece rfl rfl
    (by decide)
  refine ⟨?_, ?_, ?_⟩
  · exact h.1 1 1 (by decide) (by decide) (by decide) (by decide) (by decide)
      (by decide)
  · exact h.2.1 0 0 (by decide)
  · exact h.2.2 0 (-1) (by decide)

/-- C10 counterexample: at the wrap state `y = 2^32 - 1` the occupied mask
cell in row 1 projects (unwrapped) to row `2^32`, far outside the board,
yet the source's unsigned indexing writes it into board row 0 instead of
discarding it: the transfer loop and the full lock both fill `(0, 4)`. -/
theorem C10_wrapped_row_counterexample :
    wellHeight ≤ c10WrapWell.active_piece_y + 1 ∧
      (exDotPiece.currentGrid 1 1).isSome = true ∧
      c10WrapWell.matrix 0 4 = none ∧
      lockMatrix c10WrapWell.active_piece_x c10WrapWell.active_piece_y
        exDotPiece.currentGrid c10WrapWell.matrix 0 4 = some 1 ∧
      (lockAndReleasePiece c10WrapWell).matrix 0 4 = some 1 := by
  decide

/-- One-step unfolding of the `next_filled_row` search. -/
theorem nextFilledRow_succ (P : Finset Int) (f : Nat) (r : Int) :
    nextFilledRow P (f + 1) r =
      if r ∈ P then nextFilledRow P f (r - 1) else r := rfl

/-- The `next_filled_row` search, given enough fuel over a set of
non-negative rows, lands on the nearest row at or above (numerically at or
below) the start that is not in the pending set, with every row strictly
between in the pending set. -/
theorem nextFilledRow_spec :
    ∀ (f : Nat) (P : Finset Int) (r : Int), (∀ p ∈ P, 0 ≤ p) →
      -1 ≤ r → r + 2 ≤ (f : Int) →
      nextFilledRow P f r ∉ P ∧ -1 ≤ nextFilledRow P f r ∧
        nextFilledRow P f r ≤ r ∧
        ∀ k : Int, nextFilledRow P f r < k → k ≤ r → k ∈ P := by
  intro f
  induction f with
  | zero =>
      intro P r hP h1 h2
      exact absurd h2 (by push_cast; omega)
  | succ f ih =>
      intro P r hP h1 h2
      push_cast at h2
      rw [nextFilledRow_succ]
      by_cases hr : r ∈ P
      · rw [if_pos hr]
        have h0r : 0 ≤ r := hP r hr
        obtain ⟨ha, hb, hc, hd⟩ := ih P (r - 1) hP (by omega) (by omega)
        refine ⟨ha, hb, by omega, ?_⟩
        intro k hk1 hk2
        by_cases hkr : k = r
        · rw [hkr]; exact hr
        · exact hd k hk1 (by omega)
      · rw [if_neg hr]
        exact ⟨hr, h1, le_refl r,
          fun k hk1 hk2 => absurd hk2 (not_le.mpr hk1)⟩

/-- One-step unfolding of the compaction loop. -/
theorem compactFrom_succ (m : BoardMatrix) (P : Finset Int) (i : Nat) :
    compactFrom m P (i + 1) =
      if (i : Int) ∈ P then
        if nextFilledRow P 24 (i : Int) < 0 then (m, P)
        else
          compactFrom (swapRows m (i : Int) (nextFilledRow P 24 (i : Int)))
            (insert (nextFilledRow P 24 (i : Int)) P) i
      else compactFrom m P i := rfl

/-- Rows at or below the loop's starting row are never moved by the
compaction loop. -/
theorem compact_untouched :
    ∀ fuel : Nat, fuel ≤ 23 →
      ∀ (m : BoardMatrix) (P : Finset Int), (∀ p ∈ P, 0 ≤ p) →
        ∀ t : Int, (fuel : Int) ≤ t → (compactFrom m P fuel).1 t = m t := by
  intro fuel
  induction fuel with
  | zero => intro _ m P hP t ht; rfl
  | succ i ih =>
      intro hle m P hP t ht
      push_cast at ht
      rw [compactFrom_succ]
      by_cases hi : (i : Int) ∈ P
      · rw [if_pos hi]
        obtain ⟨ha, hb, hc, hd⟩ := nextFilledRow_spec 24 P (i : Int) hP
          (by omega) (by push_cast; omega)
        by_cases hneg : nextFilledRow P 24 (i : Int) < 0
        · rw [if_pos hneg]
        · rw [if_neg hneg]
          have hP' : ∀ p ∈ insert (nextFilledRow P 24 (i : Int)) P, 0 ≤ p := by
            intro p hp
            rcases Finset.mem_insert.mp hp with h | h
            · omega
            · exact hP p h
          rw [ih (by omega) _ _ hP' t (by omega)]
          unfold swapRows
          rw [if_neg (by omega), if_neg (by omega)]
      · rw [if_neg hi]
        exact ih (by omega) m P hP t (by omega)

/-- Each surviving row ends up shifted down by the number of pending rows
strictly below it (within the loop's range): the compaction loop moves row
`r` to row `r + #{c ∈ pending | r < c ≤ i}`. -/
theorem compact_pull :
    ∀ i : Nat, i ≤ 22 →
      ∀ (m : BoardMatrix) (P : Finset Int), (∀ p ∈ P, 0 ≤ p) →
        ∀ r : Int, r ∉ P → 0 ≤ r → r ≤ (i : Int) →
          (compactFrom m P (i + 1)).1
              (r + ((P.filter fun c => r < c ∧ c ≤ (i : Int)).card : Int))
            = m r := by
  intro i
  induction i with
  | zero =>
      intro _ m P hP r hr h0 hi
      rw [compactFrom_succ]
      push_cast at hi ⊢
      have hr0 : r = 0 := le_antisymm hi h0
      have h00 : (0 : Int) ∉ P := hr0 ▸ hr
      rw [if_neg h00]
      have hfe : (P.filter fun c => r < c ∧ c ≤ (0 : Int)) = ∅ := by
        rw [Finset.filter_eq_empty_iff]
        intro c hc
        have := hP c hc
        omega
      rw [hfe]
      simp only [Finset.card_empty, Nat.cast_zero, add_zero]
      rw [hr0]
      rfl
  | succ i ih =>
      intro hle m P hP r hr h0 hi
      rw [compactFrom_succ]
      push_cast at hi ⊢
      by_cases hj : ((i : Int) + 1) ∈ P
      · rw [if_pos hj]
        obtain ⟨ha, hb, hc, hd⟩ := nextFilledRow_spec 24 P ((i : Int) + 1) hP
          (by omega) (by push_cast; omega)
        set nf := nextFilledRow P 24 ((i : Int) + 1) with hnfdef
        by_cases hneg : nf < 0
        · exact absurd (hd r (by omega) (by omega)) hr
        · rw [if_neg hneg]
          have hP' : ∀ p ∈ insert nf P, 0 ≤ p := by
            intro p hp
            rcases Finset.mem_insert.mp hp with h | h
            · omega
            · exact hP p h
          have hnfle : nf ≤ (i : Int) := by
            rcases eq_or_lt_of_le hc with heq | hlt
            · exact absurd (heq ▸ hj) ha
            · omega
          by_cases hrnf : r = nf
          · have hfio : (P.filter fun c => r < c ∧ c ≤ (i : Int) + 1)
                = Finset.Ioc nf ((i : Int) + 1) := by
              ext c
              simp only [Finset.mem_filter, Finset.mem_Ioc]
              constructor
              · rintro ⟨_, hlt, hle2⟩
                exact ⟨hrnf ▸ hlt, hle2⟩
              · rintro ⟨hlt, hle2⟩
                exact ⟨hd c hlt hle2, by omega, hle2⟩
            rw [hfio, Int.card_Ioc]
            have hcast2 : r + ((((i : Int) + 1) - nf).toNat : Int)
                = (i : Int) + 1 := by omega
            rw [hcast2]
            rw [compact_untouched (i + 1) (by omega) _ _ hP' _
              (by push_cast; omega)]
            unfold swapRows
            rw [if_pos rfl, hrnf]
          · have hrlt : r < nf := by
              by_contra hge
              push_neg at hge
              rcases eq_or_lt_of_le hge with heq | hlt
              · exact hrnf heq.symm
              · exact hr (hd r hlt (by omega))
            have hr' : r ∉ insert nf P := by
              rw [Finset.mem_insert]
              rintro (h | h)
              · omega
              · exact hr h
            have h2 : (P.filter fun c => r < c ∧ c ≤ (i : Int) + 1)
                = insert ((i : Int) + 1)
                    (P.filter fun c => r < c ∧ c ≤ (i : Int)) := by
              ext c
              simp only [Finset.mem_filter, Finset.mem_insert]
              constructor
              · rintro ⟨hcP, hlt, hle2⟩
                by_cases hceq : c = (i : Int) + 1
                · exact Or.inl hceq
                · exact Or.inr ⟨hcP, hlt, by omega⟩
              · rintro (hceq | ⟨hcP, hlt, hle2⟩)
                · subst hceq
                  exact ⟨hj, by omega, le_refl _⟩
                · exact ⟨hcP, hlt, by omega⟩
            have h1 : ((insert nf P).filter fun c => r < c ∧ c ≤ (i : Int))
                = insert nf (P.filter fun c => r < c ∧ c ≤ (i : Int)) := by
              rw [Finset.filter_insert, if_pos ⟨hrlt, hnfle⟩]
            have hnm1 : ((i : Int) + 1)
                ∉ (P.filter fun c => r < c ∧ c ≤ (i : Int)) := by
              intro hmem
              have := (Finset.mem_filter.mp hmem).2
              omega
            have hnm2 : nf ∉ (P.filter fun c => r < c ∧ c ≤ (i : Int)) := by
              intro hmem
              exact ha (Finset.mem_filter.mp hmem).1
            have hcards : (P.filter fun c => r < c ∧ c ≤ (i : Int) + 1).card
                = ((insert nf P).filter fun c =>
                    r < c ∧ c ≤ (i : Int)).card := by
              rw [h2, h1, Finset.card_insert_of_not_mem hnm1,
                Finset.card_insert_of_not_mem hnm2]
            rw [hcards]
            rw [ih (by omega) (swapRows m ((i : Int) + 1) nf) (insert nf P)
              hP' r hr' h0 (by omega)]
            unfold swapRows
            rw [if_neg (by omega), if_neg (by omega)]
      · rw [if_neg hj]
        by_cases hri : r = (i : Int) + 1
        · have hfe : (P.filter fun c => r < c ∧ c ≤ (i : Int) + 1) = ∅ := by
            rw [Finset.filter_eq_empty_iff]
            intro c hc
            omega
          rw [hfe]
          simp only [Finset.card_empty, Nat.cast_zero, add_zero]
          exact compact_untouched (i + 1) (by omega) m P hP r
            (by push_cast; omega)
        · have hfe : (P.filter fun c => r < c ∧ c ≤ (i : Int) + 1)
              = (P.filter fun c => r < c ∧ c ≤ (i : Int)) := by
            ext c
            simp only [Finset.mem_filter]
            constructor
            · rintro ⟨hcP, hlt, hle2⟩
              refine ⟨hcP, hlt, ?_⟩
              by_cases hceq : c = (i : Int) + 1
              · exact absurd (hceq ▸ hcP) hj
              · omega
            · rintro ⟨hcP, hlt, hle2⟩
              exact ⟨hcP, hlt, by omega⟩
          rw [hfe]
          exact ih (by omega) m P hP r hr h0 (by omega)

/-- C5: when pending cleared rows exist and the last blocking animation has
finished, a single `update` call finalizes the clear: every surviving row is
shifted down by the number of pending cleared rows below it, `LINE_CLEAR` is
emitted with the number of pending rows, the pending set is emptied, the
lock countdown is stopped, and `NEXT_REQUESTED` is emitted. -/
theorem C5_lineclear_finalized (fd : Int) (events : List InputEvent)
    (s : Well)
    (hgo : s.gameover = false)
    (hpend_ne : s.pending_cleared_rows ≠ ∅)
    (hsub : s.pending_cleared_rows ⊆ Finset.Icc (0 : Int) 21)
    (hanim : tickAnims fd s.blocking_anims = []) :
    (update fd events s).pending_cleared_rows = ∅ ∧
      (update fd events s).lock_countdown.running = false ∧
      (update fd events s).emitted = s.emitted ++
        [WellEvent.LINE_CLEAR s.pending_cleared_rows.card,
          WellEvent.NEXT_REQUESTED] ∧
      (∀ r : Int, r ∉ s.pending_cleared_rows → 0 ≤ r → r < 22 →
        (update fd events s).matrix
            (r + ((s.pending_cleared_rows.filter fun c => r < c).card : Int))
          = s.matrix r) := by
  have hstep : update fd events s =
      notifyEvent WellEvent.NEXT_REQUESTED (countdownStop (removeEmptyRows
        { s with animations := tickAnims fd s.animations,
                 blocking_anims := tickAnims fd s.blocking_anims })) := by
    simp only [update, hgo, Bool.false_eq_true, if_false, hanim]
    rw [if_pos hpend_ne]
    simp
  have hP : ∀ p ∈ s.pending_cleared_rows, 0 ≤ p := fun p hp =>
    (Finset.mem_Icc.mp (hsub hp)).1
  refine ⟨?_, ?_, ?_, ?_⟩
  · rw [hstep]
    simp [notifyEvent, countdownStop, removeEmptyRows]
  · rw [hstep]
    simp [notifyEvent, countdownStop, removeEmptyRows]
  · rw [hstep]
    simp [notifyEvent, countdownStop, removeEmptyRows]
  · intro r hrP hr0 hr22
    rw [hstep]
    simp only [notifyEvent, countdownStop, removeEmptyRows, wellHeight]
    have hfe : (s.pending_cleared_rows.filter fun c => r < c)
        = s.pending_cleared_rows.filter
            fun c => r < c ∧ c ≤ ((22 : Nat) : Int) := by
      apply Finset.filter_congr
      intro c hcP
      have hcb := Finset.mem_Icc.mp (hsub hcP)
      push_cast
      constructor
      · intro h
        exact ⟨h, by omega⟩
      · rintro ⟨h, _⟩
        exact h
    rw [hfe]
    exact compact_pull 22 (by omega) s.matrix s.pending_cleared_rows hP r hrP
      hr0 (by push_cast; omega)

/-- Witness for `C5_lineclear_finalized`: clearing rows 20 and 21 of
`exClearWell` pulls the marker row 19 down to row 21 and emits
`LINE_CLEAR 2` then `NEXT_REQUESTED`. -/
theorem C5_lineclear_finalized_witness :
    (update 1 [] exClearWell).pending_cleared_rows = ∅ ∧
      (update 1 [] exClearWell).lock_countdown.running = false ∧
      (update 1 [] exClearWell).emitted = exClearWell.emitted ++
        [WellEvent.LINE_CLEAR exClearWell.pending_cleared_rows.card,
          WellEvent.NEXT_REQUESTED] ∧
      (update 1 [] exClearWell).matrix
          ((19 : Int) + ((exClearWell.pending_cleared_rows.filter
              fun c => (19 : Int) < c).card : Int))
        = exClearWell.matrix 19 := by
  have h := C5_lineclear_finalized 1 [] exClearWell rfl (by decide)
    (by decide) rfl
  exact ⟨h.1, h.2.1, h.2.2.1, h.2.2.2 19 (by decide) (by decide) (by decide)⟩

/-- The first `k` bags hold `7 * k` pieces. -/
theorem flatBags_length (bags : Nat → List PieceType)
    (hlen : ∀ i, (bags i).length = 7) :
    ∀ k, (flatBags bags k).length = 7 * k := by
  intro k
  induction k with
  | zero => rfl
  | succ k ih =>
      unfold flatBags at *
      rw [List.range_succ, List.flatMap_append, List.length_append, ih]
      simp [hlen k]
      ring

/-- Indexing into the bag concatenation: position `n` holds piece `n % 7` of
bag `n / 7`. -/
theorem flatBags_getElem? (bags : Nat → List PieceType)
    (hlen : ∀ i, (bags i).length = 7) :
    ∀ k n, n < 7 * k → (flatBags bags k)[n]? = (bags (n / 7))[n % 7]? := by
  intro k
  induction k with
  | zero => intro n h; exact absurd h (by omega)
  | succ k ih =>
      intro n h
      have hsplit : flatBags bags (k + 1) = flatBags bags k ++ bags k := by
        unfold flatBags
        rw [List.range_succ, List.flatMap_append]
        simp
      rw [hsplit]
      by_cases hn : n < 7 * k
      · rw [List.getElem?_append_left (by rw [flatBags_length bags hlen k]; exact hn)]
        exact ih n hn
      · rw [List.getElem?_append_right (by rw [flatBags_length bags hlen k]; omega)]
        rw [flatBags_length bags hlen k]
        have h1 : n / 7 = k := by omega
        have h2 : n - 7 * k = n % 7 := by omega
        rw [h1, h2]

/-- The queue state after `n` draws: the queue is exactly the concatenation
of the generated bags with the first `n` pieces removed, and the supply is
ahead of consumption. -/
theorem queueStates_spec (bags : Nat → List PieceType)
    (hlen : ∀ i, (bags i).length = 7) (displayed : Nat) :
    ∀ n : Nat, ∃ k : Nat,
      (queueStates bags displayed n).bag_idx = k ∧
      (queueStates bags displayed n).piece_queue = (flatBags bags k).drop n ∧
      n < 7 * k ∧
      (queueStates bags displayed n).displayed_piece_count = displayed := by
  intro n
  induction n with
  | zero =>
      refine ⟨1, rfl, ?_, by omega, rfl⟩
      show ([] : List PieceType) ++ bags 0 = (flatBags bags 1).drop 0
      simp [flatBags, List.range_succ]
  | succ n ih =>
      obtain ⟨k, hidx, hq, hlt, hdisp⟩ := ih
      have hunfold : queueStates bags displayed (n + 1)
          = (PieceQueue.next bags (queueStates bags displayed n)).2 := rfl
      cases hqe : (queueStates bags displayed n).piece_queue with
      | nil =>
          exfalso
          rw [hqe] at hq
          have := congrArg List.length hq
          rw [List.length_drop, flatBags_length bags hlen k] at this
          simp at this
          omega
      | cons p rest =>
          have hrest : rest = (flatBags bags k).drop (n + 1) := by
            have htl : (p :: rest).tail = ((flatBags bags k).drop n).tail := by
              rw [← hqe, ← hq]
            rw [List.tail_drop] at htl
            exact htl
          have hsplit : flatBags bags (k + 1) = flatBags bags k ++ bags k := by
            unfold flatBags
            rw [List.range_succ, List.flatMap_append]
            simp
          by_cases href : rest.length ≤ displayed
          · refine ⟨k + 1, ?_, ?_, by omega, ?_⟩
            · rw [hunfold]
              simp only [PieceQueue.next, hqe, hdisp]
              rw [if_pos href]
              simp [generate_pieces, hidx]
            · rw [hunfold]
              simp only [PieceQueue.next, hqe, hdisp]
              rw [if_pos href]
              show rest ++ bags ((queueStates bags displayed n).bag_idx)
                  = (flatBags bags (k + 1)).drop (n + 1)
              rw [hidx, hrest, hsplit, List.drop_append_of_le_length]
              rw [flatBags_length bags hlen k]
              omega
            · rw [hunfold]
              simp only [PieceQueue.next, hqe, hdisp]
              rw [if_pos href]
              simp [generate_pieces, hdisp]
          · refine ⟨k, ?_, ?_, ?_, ?_⟩
            · rw [hunfold]
              simp only [PieceQueue.next, hqe, hdisp]
              rw [if_neg href]
              exact hidx
            · rw [hunfold]
              simp only [PieceQueue.next, hqe, hdisp]
              rw [if_neg href]
              exact hrest
            · have hlr : rest.length = 7 * k - (n + 1) := by
                rw [hrest, List.length_drop, flatBags_length bags hlen k]
              omega
            · rw [hunfold]
              simp only [PieceQueue.next, hqe, hdisp]
              rw [if_neg href]

/-- The piece supply draws exactly the concatenation of the generated bags:
draw `n` is piece `n % 7` of bag `n / 7`. -/
theorem drawAt_eq (bags : Nat → List PieceType)
    (hlen : ∀ i, (bags i).length = 7) (displayed n : Nat) :
    drawAt bags displayed n = (bags (n / 7))[n % 7]? := by
  obtain ⟨k, hidx, hq, hlt, hdisp⟩ := queueStates_spec bags hlen displayed n
  unfold drawAt
  cases hqe : (queueStates bags displayed n).piece_queue with
  | nil =>
      exfalso
      rw [hqe] at hq
      have := congrArg List.length hq
      rw [List.length_drop, flatBags_length bags hlen k] at this
      simp at this
      omega
  | cons p rest =>
      simp only [PieceQueue.next, hqe]
      have hp : (flatBags bags k)[n]? = some p := by
        have h0 : ((flatBags bags k).drop n)[0]? = some p := by
          rw [← hq, hqe]
          simp
        rw [List.getElem?_drop] at h0
        simpa using h0
      rw [← flatBags_getElem? bags hlen k n hlt, hp]

/-- C7 (amended form): every window of 13 consecutive draws of the piece
supply contains every piece type at least once, for any fair bag oracle
(each shuffle a permutation of the 7 types) and any preview size. -/
theorem C7_thirteen_draw_window (bags : Nat → List PieceType)
    (hperm : ∀ i, (bags i).Perm allTypes) (displayed t : Nat)
    (ty : PieceType) :
    ∃ n : Nat, t ≤ n ∧ n < t + 13 ∧ drawAt bags displayed n = some ty := by
  have hlen : ∀ i, (bags i).length = 7 := fun i => (hperm i).length_eq
  have hmem : ty ∈ bags ((t + 6) / 7) := by
    rw [(hperm ((t + 6) / 7)).mem_iff]
    cases ty <;> simp [allTypes]
  obtain ⟨r, hr, hget⟩ := List.mem_iff_getElem.mp hmem
  rw [hlen ((t + 6) / 7)] at hr
  refine ⟨7 * ((t + 6) / 7) + r, by omega, by omega, ?_⟩
  rw [drawAt_eq bags hlen displayed]
  have h1 : (7 * ((t + 6) / 7) + r) / 7 = (t + 6) / 7 := by omega
  have h2 : (7 * ((t + 6) / 7) + r) % 7 = r := by omega
  rw [h1, h2]
  rw [List.getElem?_eq_getElem (by rw [hlen]; exact hr)]
  rw [hget]

/-- C7 counterexample: with the fair bags of `exBags` and preview size 3, the
draws at positions 1-7 are J, L, O, S, T, Z, Z; this window of 7 consecutive
draws misses the I piece, so the supply does not cover all 7 types in every
7-draw window. -/
theorem C7_seven_draw_window_counterexample :
    (∀ i, (exBags i).Perm allTypes) ∧
      ¬ ∀ (t : Nat) (ty : PieceType), ∃ n : Nat,
          t ≤ n ∧ n < t + 7 ∧ drawAt exBags 3 n = some ty := by
  constructor
  · intro i
    by_cases h : i = 0
    · rw [h]
      decide
    · simp only [exBags, if_neg h]
      decide
  · intro hall
    obtain ⟨n, h1, h2, h3⟩ := hall 1 PieceType.I
    interval_cases n <;> revert h3 <;> decide

/-- The configured preview size never changes. -/
theorem queueStates_displayed (bags : Nat → List PieceType) (displayed : Nat) :
    ∀ n, (queueStates bags displayed n).displayed_piece_count = displayed := by
  intro n
  induction n with
  | zero => rfl
  | succ n ih =>
      show ((PieceQueue.next bags
        (queueStates bags displayed n)).2).displayed_piece_count = displayed
      cases hqe : (queueStates bags displayed n).piece_queue with
      | nil =>
          simp only [PieceQueue.next, hqe]
          exact ih
      | cons p rest =>
          simp only [PieceQueue.next, hqe]
          by_cases href : rest.length ≤
              (queueStates bags displayed n).displayed_piece_count
          · rw [if_pos href]
            show (generate_pieces bags _).displayed_piece_count = displayed
            simp only [generate_pieces]
            exact ih
          · rw [if_neg href]
            exact ih

/-- C8 (amended form): for every preview size of at most 6, after
construction and after every call to `next()` the internal queue holds more
pieces than the preview size. -/
theorem C8_queue_exceeds_preview (bags : Nat → List PieceType)
    (hlen : ∀ i, (bags i).length = 7) (displayed : Nat) (hd : displayed ≤ 6) :
    ∀ n : Nat,
      displayed < (queueStates bags displayed n).piece_queue.length := by
  intro n
  induction n with
  | zero =>
      show displayed < (([] : List PieceType) ++ bags 0).length
      rw [List.nil_append, hlen 0]
      omega
  | succ n ih =>
      show displayed <
        ((PieceQueue.next bags
          (queueStates bags displayed n)).2).piece_queue.length
      cases hqe : (queueStates bags displayed n).piece_queue with
      | nil =>
          rw [hqe] at ih
          exact absurd ih (by simp)
      | cons p rest =>
          simp only [PieceQueue.next, hqe, queueStates_displayed]
          by_cases href : rest.length ≤ displayed
          · rw [if_pos href]
            show displayed < (rest ++ bags _).length
            rw [List.length_append, hlen]
            omega
          · rw [if_neg href]
            show displayed < rest.length
            omega

/-- C8 counterexample: with preview size 7 the constructor generates a
single 7-piece bag, so immediately after construction the queue does not
hold more pieces than the preview size. -/
theorem C8_queue_exceeds_preview_counterexample :
    (∀ i, (exBags i).Perm allTypes) ∧
      ¬ 7 < (queueStates exBags 7 0).piece_queue.length := by
  constructor
  · intro i
    by_cases h : i = 0
    · rw [h]
      decide
    · simp only [exBags, if_neg h]
      decide
  · decide

/-- Witness for `C7_thirteen_draw_window`: with the fair bags of `exBags`,
some draw among positions 1-13 is the I piece. -/
theorem C7_thirteen_draw_window_witness :
    ∃ n : Nat, 1 ≤ n ∧ n < 1 + 13 ∧ drawAt exBags 3 n = some PieceType.I :=
  C7_thirteen_draw_window exBags
    (by
      intro i
      by_cases h : i = 0
      · rw [h]
        decide
      · simp only [exBags, if_neg h]
        decide)
    3 1 PieceType.I

/-- Witness for `C8_queue_exceeds_preview`: with preview size 3, the queue
still holds more than 3 pieces after two draws. -/
theorem C8_queue_exceeds_preview_witness :
    3 < (queueStates exBags 3 2).piece_queue.length :=
  C8_queue_exceeds_preview exBags
    (by
      intro i
      by_cases h : i = 0
      · rw [h]
        decide
      · simp only [exBags, if_neg h]
        decide)
    3 (by omega) 2

/-- `lockPres` composes. -/
theorem lockPres_trans {s t u : Well} (h1 : lockPres s t)
    (h2 : lockPres t u) : lockPres s u := by
  obtain ⟨a1, b1, c1, d1, e1, f1, g1⟩ := h1
  obtain ⟨a2, b2, c2, d2, e2, f2, g2⟩ := h2
  exact ⟨a2.trans a1, b2.trans b1, c2.trans c1, d2.trans d1, e2.trans e1,
    f2.trans f1, fun h => g2 (g1 h)⟩

/-- `dropPres` composes. -/
theorem dropPres_trans {s t u : Well} (h1 : dropPres s t)
    (h2 : dropPres t u) : dropPres s u := by
  obtain ⟨a1, c1, d1, e1, f1, g1⟩ := h1
  obtain ⟨a2, c2, d2, e2, f2, g2⟩ := h2
  exact ⟨a2.trans a1, c2.trans c1, d2.trans d1, e2.trans e1, f2.trans f1,
    fun h => g2 (g1 h)⟩

/-- `phasePres` composes. -/
theorem phasePres_trans {s t u : Well} (h1 : phasePres s t)
    (h2 : phasePres t u) : phasePres s u := by
  obtain ⟨a1, b1, c1, d1⟩ := h1
  obtain ⟨a2, b2, c2, d2⟩ := h2
  exact ⟨a2.trans a1, b2.trans b1, c2.trans c1, d2.trans d1⟩

/-- Line-clear detection does not touch the locking-invariant fields. -/
theorem checkLineclear_lockPres (s : Well) : lockPres s (checkLineclear s) := by
  unfold checkLineclear resetInput resetDAS
  split_ifs
  · exact ⟨rfl, rfl, rfl, rfl, rfl, rfl, fun h => h⟩
  · exact ⟨rfl, rfl, rfl, rfl, rfl, rfl, fun _ => ⟨rfl, rfl⟩⟩

/-- Locking the piece does not touch the locking-invariant fields. -/
theorem lockAndReleasePiece_lockPres (s : Well) :
    lockPres s (lockAndReleasePiece s) := by
  unfold lockAndReleasePiece
  cases hp : s.active_piece with
  | none => exact ⟨rfl, rfl, rfl, rfl, rfl, rfl, fun h => h⟩
  | some p =>
      exact lockPres_trans ⟨rfl, rfl, rfl, rfl, rfl, rfl, fun h => h⟩
        (checkLineclear_lockPres _)

/-- Locking then requesting the next piece keeps the locking-invariant
fields. -/
theorem lockThenRequestNext_lockPres (s : Well) :
    lockPres s (lockThenRequestNext s) := by
  unfold lockThenRequestNext
  split_ifs
  · exact lockPres_trans (lockAndReleasePiece_lockPres s)
      ⟨rfl, rfl, rfl, rfl, rfl, rfl, fun h => h⟩
  · exact lockAndReleasePiece_lockPres s

/-- A downward move keeps the drop-invariant fields. -/
theorem moveDownNow_dropPres (s : Well) : dropPres s (moveDownNow s) := by
  unfold moveDownNow
  split_ifs <;>
    first
      | exact ⟨rfl, rfl, rfl, rfl, rfl, fun h => h⟩
      | (obtain ⟨a, _, c, d, e, f, g⟩ := lockThenRequestNext_lockPres s
         exact ⟨a, c, d, e, f, g⟩)

/-- One-step unfolding of the gravity loop. -/
theorem gravityLoop_succ (fuel : Nat) (s : Well) :
    gravityLoop (fuel + 1) s =
      if s.gravity_delay ≤ s.gravity_timer then
        gravityLoop fuel
          (if ({ s with gravity_timer :=
              s.gravity_timer - s.gravity_delay } : Well).skip_gravity then
            { s with gravity_timer := s.gravity_timer - s.gravity_delay }
          else
            applyGravity { s with gravity_timer :=
              s.gravity_timer - s.gravity_delay })
      else
        s := rfl

/-- The gravity loop keeps the drop-invariant fields. -/
theorem gravityLoop_dropPres :
    ∀ (fuel : Nat) (s : Well), dropPres s (gravityLoop fuel s) := by
  intro fuel
  induction fuel with
  | zero => intro s; exact ⟨rfl, rfl, rfl, rfl, rfl, fun h => h⟩
  | succ fuel ih =>
      intro s
      rw [gravityLoop_succ]
      split_ifs with h1 h2
      · exact dropPres_trans ⟨rfl, rfl, rfl, rfl, rfl, fun h => h⟩ (ih _)
      · refine dropPres_trans ?_ (ih (applyGravity
          { s with gravity_timer := s.gravity_timer - s.gravity_delay }))
        exact dropPres_trans ⟨rfl, rfl, rfl, rfl, rfl, fun h => h⟩
          (moveDownNow_dropPres _)
      · exact ⟨rfl, rfl, rfl, rfl, rfl, fun h => h⟩

/-- Gravity accrual keeps the drop-invariant fields. -/
theorem updateGravity_dropPres (fd : Int) (s : Well) :
    dropPres s (updateGravity fd s) :=
  dropPres_trans ⟨rfl, rfl, rfl, rfl, rfl, fun h => h⟩
    (gravityLoop_dropPres _ _)

/-- When gravity is skipped for the frame, the gravity loop moves nothing:
only the accumulator changes. -/
theorem gravityLoop_skip :
    ∀ (fuel : Nat) (s : Well), s.skip_gravity = true →
      (gravityLoop fuel s).active_piece_y = s.active_piece_y ∧
        (gravityLoop fuel s).active_piece = s.active_piece ∧
        (gravityLoop fuel s).matrix = s.matrix ∧
        (gravityLoop fuel s).active_piece_x = s.active_piece_x ∧
        (gravityLoop fuel s).skip_gravity = true := by
  intro fuel
  induction fuel with
  | zero => intro s h; exact ⟨rfl, rfl, rfl, rfl, h⟩
  | succ fuel ih =>
      intro s h
      rw [gravityLoop_succ]
      split_ifs with h1
      · exact ih _ h
      · exact ⟨rfl, rfl, rfl, rfl, h⟩

/-- A gravity loop that has no full interval accrued does nothing. -/
theorem gravityLoop_stop (fuel : Nat) (s : Well)
    (h : s.gravity_timer < s.gravity_delay) : gravityLoop fuel s = s := by
  cases fuel with
  | zero => rfl
  | succ fuel =>
      rw [gravityLoop_succ]
      rw [if_neg (not_le.mpr h)]

/-- The countdown tick keeps the locking-invariant fields. -/
theorem countdownUpdate_lockPres (fd : Int) (s : Well) :
    lockPres s (countdownUpdate fd s) := by
  unfold countdownUpdate
  split_ifs <;>
    first
      | exact ⟨rfl, rfl, rfl, rfl, rfl, rfl, fun h => h⟩
      | exact lockPres_trans ⟨rfl, rfl, rfl, rfl, rfl, rfl, fun h => h⟩
          (lockThenRequestNext_lockPres _)

/-- The lock-delay update keeps the locking-invariant fields. -/
theorem updateLockDelay_lockPres (fd : Int) (s : Well) :
    lockPres s (updateLockDelay fd s) := by
  unfold updateLockDelay
  by_cases h : isOnGround s = true
  · rw [if_pos h]
    exact lockPres_trans ⟨rfl, rfl, rfl, rfl, rfl, rfl, fun h => h⟩
      (countdownUpdate_lockPres fd _)
  · rw [if_neg h]
    exact lockPres_trans ⟨rfl, rfl, rfl, rfl, rfl, rfl, fun h => h⟩
      (countdownUpdate_lockPres fd _)

/-- The post-move bookkeeping touches only the ghost offset and the lock
countdown. -/
theorem afterMoveSuccess_pres (s : Well) :
    phasePres s (afterMoveSuccess s) ∧
      (afterMoveSuccess s).active_piece_x = s.active_piece_x ∧
      (afterMoveSuccess s).active_piece_y = s.active_piece_y ∧
      (afterMoveSuccess s).active_piece = s.active_piece := by
  unfold afterMoveSuccess calculateGhostOffset
  cases hp : s.active_piece <;>
    · simp only
      split_ifs <;>
        first
          | exact ⟨⟨rfl, rfl, rfl, rfl⟩, rfl, rfl, rfl⟩
          | exact ⟨⟨rfl, rfl, rfl, rfl⟩, rfl, rfl, hp⟩

/-- A left move keeps the phase-invariant fields, the row offset and the
piece. -/
theorem moveLeftNow_pres (s : Well) :
    phasePres s (moveLeftNow s) ∧
      (moveLeftNow s).active_piece_y = s.active_piece_y ∧
      (moveLeftNow s).active_piece = s.active_piece := by
  unfold moveLeftNow
  cases hp : s.active_piece with
  | none => exact ⟨⟨rfl, rfl, rfl, rfl⟩, rfl, hp⟩
  | some p =>
      dsimp only
      split_ifs <;>
        first
          | exact ⟨⟨rfl, rfl, rfl, rfl⟩, rfl, hp⟩
          | (obtain ⟨hph, _, hy, hap⟩ := afterMoveSuccess_pres
              { s with active_piece := some p,
                       active_piece_x := s.active_piece_x - 1 }
             exact ⟨hph, hy, hap⟩)

/-- A right move keeps the phase-invariant fields, the row offset and the
piece. -/
theorem moveRightNow_pres (s : Well) :
    phasePres s (moveRightNow s) ∧
      (moveRightNow s).active_piece_y = s.active_piece_y ∧
      (moveRightNow s).active_piece = s.active_piece := by
  unfold moveRightNow
  cases hp : s.active_piece with
  | none => exact ⟨⟨rfl, rfl, rfl, rfl⟩, rfl, hp⟩
  | some p =>
      dsimp only
      split_ifs <;>
        first
          | exact ⟨⟨rfl, rfl, rfl, rfl⟩, rfl, hp⟩
          | (obtain ⟨hph, _, hy, hap⟩ := afterMoveSuccess_pres
              { s with active_piece := some p,
                       active_piece_x := s.active_piece_x + 1 }
             exact ⟨hph, hy, hap⟩)

/-- A clockwise rotation keeps the phase-invariant fields. -/
theorem rotateCWNow_pres (s : Well) : phasePres s (rotateCWNow s) := by
  unfold rotateCWNow
  cases hp : s.active_piece with
  | none => exact ⟨rfl, rfl, rfl, rfl⟩
  | some p =>
      dsimp only
      split_ifs
      · split
        · exact ⟨rfl, rfl, rfl, rfl⟩
        · exact (afterMoveSuccess_pres _).1
      · exact (afterMoveSuccess_pres _).1

/-- A counterclockwise rotation keeps the phase-invariant fields. -/
theorem rotateCCWNow_pres (s : Well) : phasePres s (rotateCCWNow s) := by
  unfold rotateCCWNow
  cases hp : s.active_piece with
  | none => exact ⟨rfl, rfl, rfl, rfl⟩
  | some p =>
      dsimp only
      split_ifs
      · split
        · exact ⟨rfl, rfl, rfl, rfl⟩
        · exact (afterMoveSuccess_pres _).1
      · exact (afterMoveSuccess_pres _).1

/-- The rotation phase keeps the phase-invariant fields. -/
theorem rotationPhase_pres (fd : Int) (s : Well) :
    phasePres s (rotationPhase fd s) := by
  unfold rotationPhase
  dsimp only
  split_ifs
  · exact rotateCCWNow_pres _
  · exact rotateCWNow_pres _
  · exact ⟨rfl, rfl, rfl, rfl⟩

/-- The horizontal phase keeps the phase-invariant fields. -/
theorem horizontalPhase_pres (fd : Int) (s : Well) :
    phasePres s (horizontalPhase fd s) := by
  unfold horizontalPhase
  dsimp only
  split_ifs <;>
    first
      | exact ⟨rfl, rfl, rfl, rfl⟩
      | exact (moveLeftNow_pres _).1
      | exact (moveRightNow_pres _).1

/-- An event that is not a hard-drop or hold press keeps the phase-invariant
fields. -/
theorem handleKeyEvent_pres (s : Well) (e : InputEvent)
    (he : e.down = true →
      e.type ≠ InputType.UP ∧ e.type ≠ InputType.GAME_HARDDROP ∧
        e.type ≠ InputType.GAME_HOLD) :
    phasePres s (handleKeyEvent s e) := by
  obtain ⟨t, d⟩ := e
  cases d
  · cases t <;> exact ⟨rfl, rfl, rfl, rfl⟩
  · cases t <;>
      first
        | exact ⟨rfl, rfl, rfl, rfl⟩
        | exact absurd rfl (he rfl).1
        | exact absurd rfl (he rfl).2.1
        | exact absurd rfl (he rfl).2.2

/-- The event loop keeps the phase-invariant fields when no hard-drop or
hold press occurs. -/
theorem foldl_handleKeyEvent_pres (events : List InputEvent) :
    ∀ s : Well,
      (∀ e ∈ events, e.down = true →
        e.type ≠ InputType.UP ∧ e.type ≠ InputType.GAME_HARDDROP ∧
          e.type ≠ InputType.GAME_HOLD) →
      phasePres s (events.foldl handleKeyEvent s) := by
  induction events with
  | nil => intro s _; exact ⟨rfl, rfl, rfl, rfl⟩
  | cons e es ih =>
      intro s hev
      rw [List.foldl_cons]
      exact phasePres_trans
        (handleKeyEvent_pres s e (hev e (List.mem_cons_self e es)))
        (ih _ fun e' he' => hev e' (List.mem_cons_of_mem e he'))

/-- One event step never clears an already-set gravity-skip flag. -/
theorem handleKeyEvent_skip_mono (s : Well) (e : InputEvent)
    (h : s.skip_gravity = true) :
    (handleKeyEvent s e).skip_gravity = true := by
  obtain ⟨t, d⟩ := e
  cases d <;> cases t <;> first | exact h | rfl

/-- The event loop never clears an already-set gravity-skip flag. -/
theorem foldl_handleKeyEvent_skip_mono (events : List InputEvent) :
    ∀ s : Well, s.skip_gravity = true →
      (events.foldl handleKeyEvent s).skip_gravity = true := by
  induction events with
  | nil => intro s h; exact h
  | cons e es ih =>
      intro s h
      rw [List.foldl_cons]
      exact ih _ (handleKeyEvent_skip_mono s e h)

/-- A hard-drop or hold press in the event loop sets the gravity-skip
flag. -/
theorem foldl_handleKeyEvent_skip_set (events : List InputEvent) :
    ∀ s : Well,
      (∃ e ∈ events, e.down = true ∧
        (e.type = InputType.UP ∨ e.type = InputType.GAME_HARDDROP ∨
          e.type = InputType.GAME_HOLD)) →
      (events.foldl handleKeyEvent s).skip_gravity = true := by
  induction events with
  | nil =>
      rintro s ⟨e, he, _⟩
      exact absurd he (List.not_mem_nil e)
  | cons e es ih =>
      rintro s ⟨e', he', hd, ht⟩
      rw [List.foldl_cons]
      rcases List.mem_cons.mp he' with heq | hmem
      · subst heq
        apply foldl_handleKeyEvent_skip_mono
        obtain ⟨t, d⟩ := e'
        cases hd
        rcases ht with h | h | h <;>
          · cases h
            rfl
      · exact ih _ ⟨e', hmem, hd, ht⟩

/-- With no hard-drop or hold press among the frame's events, the gravity
skip flag after input handling is: DOWN held now and in the previous frame,
or DOWN held with the soft-drop countdown expired (a soft-drop step). -/
theorem handleKeys_skip_noPress (fd : Int) (events : List InputEvent)
    (s : Well)
    (hev : ∀ e ∈ events, e.down = true →
      e.type ≠ InputType.UP ∧ e.type ≠ InputType.GAME_HARDDROP ∧
        e.type ≠ InputType.GAME_HOLD) :
    (handleKeys fd events s).skip_gravity =
      ((s.keystates InputType.DOWN && s.previous_keystates InputType.DOWN) ||
        (s.keystates InputType.DOWN &&
          decide (s.softdrop_timer - fd ≤ 0))) := by
  unfold handleKeys
  dsimp only
  have h1 := foldl_handleKeyEvent_pres events
    { s with skip_gravity :=
        s.keystates InputType.DOWN && s.previous_keystates InputType.DOWN }
    hev
  have h2 := rotationPhase_pres fd (List.foldl handleKeyEvent
    { s with skip_gravity :=
        s.keystates InputType.DOWN && s.previous_keystates InputType.DOWN }
    events)
  have h3 := horizontalPhase_pres fd (rotationPhase fd
    (List.foldl handleKeyEvent
      { s with skip_gravity :=
          s.keystates InputType.DOWN && s.previous_keystates InputType.DOWN }
      events))
  obtain ⟨hsk, hks, hst, hsd⟩ := phasePres_trans h1 (phasePres_trans h2 h3)
  unfold softdropPhase
  dsimp only
  rw [hks, hst, hsk]
  split_ifs with h
  · rw [h.1]
    simp [h.2]
  · by_cases hd : s.keystates InputType.DOWN = true
    · rw [hd]
      have hnt : ¬ s.softdrop_timer - fd ≤ 0 := fun hc => h ⟨hd, hc⟩
      simp [hnt]
    · rw [Bool.not_eq_true] at hd
      rw [hd]
      simp

/-- A hard-drop or hold press among the frame's events forces the gravity
skip flag. -/
theorem handleKeys_skip_press (fd : Int) (events : List InputEvent) (s : Well)
    (hex : ∃ e ∈ events, e.down = true ∧
      (e.type = InputType.UP ∨ e.type = InputType.GAME_HARDDROP ∨
        e.type = InputType.GAME_HOLD)) :
    (handleKeys fd events s).skip_gravity = true := by
  unfold handleKeys
  dsimp only
  have hset := foldl_handleKeyEvent_skip_set events
    { s with skip_gravity :=
        s.keystates InputType.DOWN && s.previous_keystates InputType.DOWN }
    hex
  have h2 := rotationPhase_pres fd (List.foldl handleKeyEvent
    { s with skip_gravity :=
        s.keystates InputType.DOWN && s.previous_keystates InputType.DOWN }
    events)
  have h3 := horizontalPhase_pres fd (rotationPhase fd
    (List.foldl handleKeyEvent
      { s with skip_gravity :=
          s.keystates InputType.DOWN && s.previous_keystates InputType.DOWN }
      events))
  have hu : (horizontalPhase fd (rotationPhase fd
      (List.foldl handleKeyEvent
        { s with skip_gravity :=
            s.keystates InputType.DOWN &&
              s.previous_keystates InputType.DOWN }
        events))).skip_gravity = true := by
    rw [h3.1, h2.1]
    exact hset
  unfold softdropPhase
  dsimp only
  split_ifs
  · rfl
  · exact hu

/-- When gravity is skipped for the frame, the gravity update moves nothing:
the piece, its position and the board are untouched. -/
theorem updateGravity_skipped (fd : Int) (s : Well)
    (h : s.skip_gravity = true) :
    (updateGravity fd s).active_piece_y = s.active_piece_y ∧
      (updateGravity fd s).active_piece = s.active_piece ∧
      (updateGravity fd s).matrix = s.matrix ∧
      (updateGravity fd s).active_piece_x = s.active_piece_x := by
  unfold updateGravity
  obtain ⟨h1, h2, h3, h4, _⟩ := gravityLoop_skip
    ((s.gravity_timer + fd).toNat + 1)
    { s with gravity_timer := s.gravity_timer + fd } h
  exact ⟨h1, h2, h3, h4⟩

/-- When gravity is not skipped and exactly one interval completes over a
freely falling piece, the gravity update moves the piece down one row. -/
theorem updateGravity_one_step (fd : Int) (s : Well) (p : Piece)
    (hskip : s.skip_gravity = false)
    (hp : s.active_piece = some p)
    (h1 : s.gravity_delay ≤ s.gravity_timer + fd)
    (h2 : s.gravity_timer + fd - s.gravity_delay < s.gravity_delay)
    (hy : s.active_piece_y + 1 < wellHeight)
    (hnc : hasCollisionAt s.matrix p.currentGrid s.active_piece_x
      (s.active_piece_y + 1) = false) :
    (updateGravity fd s).active_piece_y = s.active_piece_y + 1 := by
  unfold updateGravity
  rw [gravityLoop_succ]
  rw [if_pos (show ({ s with gravity_timer := s.gravity_timer + fd } :
    Well).gravity_delay ≤ _ from h1)]
  rw [if_neg (show ¬(({ s with gravity_timer :=
      s.gravity_timer + fd - s.gravity_delay } : Well).skip_gravity = true)
    from by rw [show ({ s with gravity_timer :=
        s.gravity_timer + fd - s.gravity_delay } : Well).skip_gravity
          = s.skip_gravity from rfl, hskip]; exact Bool.false_ne_true)]
  have hmv : applyGravity { s with gravity_timer :=
      s.gravity_timer + fd - s.gravity_delay } =
      { s with gravity_timer := s.gravity_timer + fd - s.gravity_delay,
               active_piece_y := s.active_piece_y + 1 } := by
    unfold applyGravity moveDownNow
    rw [if_neg]
    · rw [if_pos]
      rw [Bool.not_eq_true]
      unfold isOnGround
      dsimp only
      rw [hp]
      exact hnc
    · rintro (hno | hge)
      · rw [show ({ s with gravity_timer :=
            s.gravity_timer + fd - s.gravity_delay } : Well).active_piece
              = s.active_piece from rfl, hp] at hno
        exact absurd hno (by simp)
      · exact absurd (show s.active_piece_y + 1 ≥ wellHeight from hge)
          (by unfold wellHeight at hy ⊢; omega)
  rw [hmv]
  rw [gravityLoop_stop]
  exact h2

/-- With both rotation buttons in the same state, the rotation phase only
advances the throttle. -/
theorem rotationPhase_noAB (fd : Int) (s : Well)
    (h : s.keystates InputType.A = s.keystates InputType.B) :
    rotationPhase fd s =
      { s with rotation_timer := s.rotation_timer - fd } := by
  unfold rotationPhase
  dsimp only
  rw [if_neg (show ¬(s.keystates InputType.A ≠ s.keystates InputType.B ∧
      ({ s with rotation_timer := s.rotation_timer - fd } :
        Well).rotation_timer ≤ 0) from fun hc => hc.1 h)]

/-- With both horizontal directions in the same state, the horizontal phase
only advances the repeat countdown. -/
theorem horizontalPhase_noLR (fd : Int) (s : Well)
    (h : s.keystates InputType.LEFT = s.keystates InputType.RIGHT) :
    horizontalPhase fd s =
      { s with horizontal_timer := s.horizontal_timer - fd } := by
  unfold horizontalPhase
  dsimp only
  by_cases h1 : ({ s with horizontal_timer := s.horizontal_timer - fd } :
      Well).horizontal_timer ≤ 0
  · rw [if_pos h1, if_neg (show ¬(s.keystates InputType.LEFT ≠
        s.keystates InputType.RIGHT) from fun hne => hne h)]
  · rw [if_neg h1]

/-- While DOWN is held over a freely falling piece, the soft-drop phase
moves the piece exactly when its countdown fires, and always leaves the
gravity-skip flag set (DOWN was already held, or the step sets it). -/
theorem softdropPhase_down (fd : Int) (s : Well) (p : Piece)
    (hp : s.active_piece = some p)
    (hdown : s.keystates InputType.DOWN = true)
    (hy : s.active_piece_y + 1 < wellHeight)
    (hnc : hasCollisionAt s.matrix p.currentGrid s.active_piece_x
      (s.active_piece_y + 1) = false) :
    (softdropPhase fd s).active_piece_y =
        s.active_piece_y + (if s.softdrop_timer - fd ≤ 0 then 1 else 0) ∧
      (softdropPhase fd s).skip_gravity =
        (if s.softdrop_timer - fd ≤ 0 then true else s.skip_gravity) ∧
      (softdropPhase fd s).active_piece = s.active_piece := by
  unfold softdropPhase
  dsimp only
  by_cases hsd : s.softdrop_timer - fd ≤ 0
  · rw [if_pos ⟨by rw [hdown], hsd⟩, if_pos hsd, if_pos hsd]
    have hmv : moveDownNow { s with softdrop_timer := s.softdrop_timer - fd }
        = { s with softdrop_timer := s.softdrop_timer - fd,
                   active_piece_y := s.active_piece_y + 1 } := by
      unfold moveDownNow
      rw [if_neg]
      · rw [if_pos]
        rw [Bool.not_eq_true]
        unfold isOnGround
        dsimp only
        rw [hp]
        exact hnc
      · rintro (hno | hge)
        · rw [show ({ s with softdrop_timer := s.softdrop_timer - fd } :
              Well).active_piece = s.active_piece from rfl, hp] at hno
          exact absurd hno (by simp)
        · exact absurd (show s.active_piece_y + 1 ≥ wellHeight from hge)
            (by unfold wellHeight at hy ⊢; omega)
    rw [hmv]
    exact ⟨rfl, rfl, rfl⟩
  · rw [if_neg (fun hc => hsd hc.2), if_neg hsd, if_neg hsd]
    exact ⟨(add_zero s.active_piece_y).symm, rfl, rfl⟩

/-- Holding DOWN with no new events and no rotation or horizontal input:
input handling moves the piece exactly when the soft-drop countdown fires,
and always leaves gravity skipped for the frame. -/
theorem handleKeys_down_held (fd : Int) (s : Well) (p : Piece)
    (hp : s.active_piece = some p)
    (hdown : s.keystates InputType.DOWN = true)
    (hprev : s.previous_keystates InputType.DOWN = true)
    (hAB : s.keystates InputType.A = s.keystates InputType.B)
    (hLR : s.keystates InputType.LEFT = s.keystates InputType.RIGHT)
    (hy : s.active_piece_y + 1 < wellHeight)
    (hnc : hasCollisionAt s.matrix p.currentGrid s.active_piece_x
      (s.active_piece_y + 1) = false) :
    (handleKeys fd [] s).active_piece_y =
        s.active_piece_y + (if s.softdrop_timer - fd ≤ 0 then 1 else 0) ∧
      (handleKeys fd [] s).skip_gravity = true ∧
      (handleKeys fd [] s).active_piece = s.active_piece := by
  unfold handleKeys
  dsimp only
  rw [List.foldl_nil]
  rw [rotationPhase_noAB fd _ (by dsimp only; rw [hAB])]
  rw [horizontalPhase_noLR fd _ (by dsimp only; rw [hLR])]
  obtain ⟨h1, h2, h3⟩ := softdropPhase_down fd
    { s with skip_gravity :=
               s.keystates InputType.DOWN &&
                 s.previous_keystates InputType.DOWN,
             rotation_timer := s.rotation_timer - fd,
             horizontal_timer := s.horizontal_timer - fd }
    p hp hdown hy hnc
  refine ⟨h1, ?_, h3⟩
  rw [h2]
  split_ifs
  · rfl
  · show (s.keystates InputType.DOWN &&
      s.previous_keystates InputType.DOWN) = true
    rw [hdown, hprev]
    rfl

/-- Once input handling leaves a live piece with gravity skipped, the
gravity and lock-delay timers do not move it. -/
theorem updateTail_y (fd : Int) (t : Well)
    (hap : t.active_piece.isNone = false)
    (hskip : t.skip_gravity = true) :
    (updateTail fd t).active_piece_y = t.active_piece_y := by
  unfold updateTail
  rw [if_neg (by rw [hap]; exact Bool.false_ne_true)]
  obtain ⟨hgy, _, _, _⟩ := updateGravity_skipped fd t hskip
  obtain ⟨_, huy, _⟩ := updateLockDelay_lockPres fd (updateGravity fd t)
  rw [huy, hgy]

/-- Holding DOWN with no new events and no rotation or horizontal input: the
frame moves the piece down exactly when the soft-drop countdown fires, so a
continuously held DOWN makes the piece descend at the soft-drop rate —
gravity contributes nothing. -/
theorem update_down_held (fd : Int) (s : Well) (p : Piece)
    (hgo : s.gameover = false)
    (hpend : s.pending_cleared_rows = ∅)
    (hp : s.active_piece = some p)
    (hdown : s.keystates InputType.DOWN = true)
    (hAB : s.keystates InputType.A = s.keystates InputType.B)
    (hLR : s.keystates InputType.LEFT = s.keystates InputType.RIGHT)
    (hy : s.active_piece_y + 1 < wellHeight)
    (hnc : hasCollisionAt s.matrix p.currentGrid s.active_piece_x
      (s.active_piece_y + 1) = false) :
    (update fd [] s).active_piece_y =
      s.active_piece_y + (if s.softdrop_timer - fd ≤ 0 then 1 else 0) := by
  simp only [update, hgo, Bool.false_eq_true, if_false]
  rw [if_neg (by simp [hpend])]
  obtain ⟨h1, h2, h3⟩ := handleKeys_down_held fd
    (updateKeystate [] { s with gameover := false, animations := tickAnims fd s.animations, blocking_anims := tickAnims fd s.blocking_anims })
    p hp hdown hdown hAB hLR hy hnc
  rw [updateTail_y fd
    (handleKeys fd [] (updateKeystate [] { s with gameover := false, animations := tickAnims fd s.animations, blocking_anims := tickAnims fd s.blocking_anims }))
    (by rw [h3]
        rw [show (updateKeystate [] { s with gameover := false, animations := tickAnims fd s.animations, blocking_anims := tickAnims fd s.blocking_anims }).active_piece = s.active_piece from rfl, hp]
        rfl)
    h2]
  exact h1

/-- With DOWN not held, the soft-drop phase only advances its countdown. -/
theorem softdropPhase_noDown (fd : Int) (s : Well)
    (h : s.keystates InputType.DOWN = false) :
    softdropPhase fd s =
      { s with softdrop_timer := s.softdrop_timer - fd } := by
  unfold softdropPhase
  dsimp only
  rw [if_neg (fun hc => Bool.false_ne_true (h.symm.trans hc.1))]

/-- A gravity update whose accrued time stays below one interval only
stores the new accumulator value. -/
theorem updateGravity_stop (fd : Int) (t : Well)
    (h : t.gravity_timer + fd < t.gravity_delay) :
    updateGravity fd t = { t with gravity_timer := t.gravity_timer + fd } := by
  unfold updateGravity
  exact gravityLoop_stop _ _ h

/-- With the piece airborne, the lock-delay update merely keeps the
countdown stopped. -/
theorem updateLockDelay_free (fd : Int) (u : Well)
    (hg : isOnGround u = false) :
    updateLockDelay fd u = countdownStop u := by
  unfold updateLockDelay
  rw [if_neg (fun hc => Bool.false_ne_true (hg.symm.trans hc))]
  unfold countdownUpdate
  rw [if_neg (show ¬((countdownStop u).lock_countdown.running = true) from
    fun hc => Bool.false_ne_true hc)]

/-- The post-move bookkeeping touches neither the board, the gravity
fields, nor the auto-repeat fields. -/
theorem afterMoveSuccess_keep (s : Well) :
    (afterMoveSuccess s).matrix = s.matrix ∧
      (afterMoveSuccess s).gravity_timer = s.gravity_timer ∧
      (afterMoveSuccess s).gravity_delay = s.gravity_delay ∧
      (afterMoveSuccess s).das_timer = s.das_timer ∧
      (afterMoveSuccess s).horizontal_delay_current =
        s.horizontal_delay_current ∧
      (afterMoveSuccess s).horizontal_delay_normal =
        s.horizontal_delay_normal ∧
      (afterMoveSuccess s).horizontal_timer = s.horizontal_timer := by
  unfold afterMoveSuccess calculateGhostOffset
  cases s.active_piece <;>
    · dsimp only
      split_ifs <;> exact ⟨rfl, rfl, rfl, rfl, rfl, rfl, rfl⟩

/-- A free left move shifts the piece one column left. -/
theorem moveLeftNow_x (s : Well) (p : Piece) (hp : s.active_piece = some p)
    (hx : ¬ s.active_piece_x - 1 ≤ -3)
    (hnc : hasCollisionAt s.matrix p.currentGrid (s.active_piece_x - 1)
      s.active_piece_y = false) :
    (moveLeftNow s).active_piece_x = s.active_piece_x - 1 := by
  unfold moveLeftNow
  rw [hp]
  dsimp only
  rw [if_neg hx]
  rw [if_pos (show ¬ hasCollisionAt s.matrix p.currentGrid
      (s.active_piece_x - 1) s.active_piece_y = true from
    by rw [Bool.not_eq_true]; exact hnc)]
  exact (afterMoveSuccess_pres
    { s with active_piece := some p,
             active_piece_x := s.active_piece_x - 1 }).2.1

/-- A left move touches neither the board nor the gravity fields. -/
theorem moveLeftNow_keep (s : Well) :
    (moveLeftNow s).matrix = s.matrix ∧
      (moveLeftNow s).gravity_timer = s.gravity_timer ∧
      (moveLeftNow s).gravity_delay = s.gravity_delay := by
  unfold moveLeftNow
  cases s.active_piece with
  | none => exact ⟨rfl, rfl, rfl⟩
  | some p =>
      dsimp only
      split_ifs <;>
        first
          | exact ⟨rfl, rfl, rfl⟩
          | (obtain ⟨hm, hg1, hg2, _, _, _, _⟩ := afterMoveSuccess_keep
              { s with active_piece := some p,
                       active_piece_x := s.active_piece_x - 1 }
             exact ⟨hm, hg1, hg2⟩)

/-- With only LEFT held over a free destination, the horizontal phase moves
the piece exactly when its repeat countdown has expired, and touches
nothing else that the rest of the frame observes. -/
theorem horizontalPhase_left (fd : Int) (s : Well) (p : Piece)
    (hp : s.active_piece = some p)
    (hL : s.keystates InputType.LEFT = true)
    (hR : s.keystates InputType.RIGHT = false)
    (hx : ¬ s.active_piece_x - 1 ≤ -3)
    (hnc : hasCollisionAt s.matrix p.currentGrid (s.active_piece_x - 1)
      s.active_piece_y = false) :
    (horizontalPhase fd s).active_piece_x =
        (if s.horizontal_timer - fd ≤ 0 then s.active_piece_x - 1
         else s.active_piece_x) ∧
      (horizontalPhase fd s).active_piece = s.active_piece ∧
      (horizontalPhase fd s).active_piece_y = s.active_piece_y ∧
      (horizontalPhase fd s).matrix = s.matrix ∧
      (horizontalPhase fd s).keystates = s.keystates ∧
      (horizontalPhase fd s).gravity_timer = s.gravity_timer ∧
      (horizontalPhase fd s).gravity_delay = s.gravity_delay := by
  unfold horizontalPhase
  dsimp only
  by_cases ht : s.horizontal_timer - fd ≤ 0
  · rw [if_pos ht, if_pos ht]
    rw [if_pos (show s.keystates InputType.LEFT ≠
        s.keystates InputType.RIGHT from by rw [hL, hR]; decide)]
    rw [if_pos hL]
    have hmlx := moveLeftNow_x
      { s with horizontal_timer := s.horizontal_timer - fd } p hp hx hnc
    obtain ⟨hph, hmly, hmlap⟩ := moveLeftNow_pres
      { s with horizontal_timer := s.horizontal_timer - fd }
    obtain ⟨hmlm, hmlgt, hmlgd⟩ := moveLeftNow_keep
      { s with horizontal_timer := s.horizontal_timer - fd }
    split_ifs with hdas <;>
      exact ⟨hmlx, hmlap, hmly, hmlm, hph.2.1, hmlgt, hmlgd⟩
  · rw [if_neg ht, if_neg ht]
    exact ⟨rfl, rfl, rfl, rfl, rfl, rfl, rfl⟩

/-- A frame whose only event is a LEFT press: input handling moves the
piece one column left exactly when the repeat countdown has expired, and
leaves the board and gravity bookkeeping alone. -/
theorem handleKeys_press_left (fd : Int) (s : Well) (p : Piece)
    (hp : s.active_piece = some p)
    (hL : s.keystates InputType.LEFT = true)
    (hR : s.keystates InputType.RIGHT = false)
    (hDown : s.keystates InputType.DOWN = false)
    (hAB : s.keystates InputType.A = s.keystates InputType.B)
    (hx : ¬ s.active_piece_x - 1 ≤ -3)
    (hnc : hasCollisionAt s.matrix p.currentGrid (s.active_piece_x - 1)
      s.active_piece_y = false) :
    (handleKeys fd [⟨InputType.LEFT, true⟩] s).active_piece_x =
        (if s.horizontal_timer - fd ≤ 0 then s.active_piece_x - 1
         else s.active_piece_x) ∧
      (handleKeys fd [⟨InputType.LEFT, true⟩] s).active_piece =
        s.active_piece ∧
      (handleKeys fd [⟨InputType.LEFT, true⟩] s).active_piece_y =
        s.active_piece_y ∧
      (handleKeys fd [⟨InputType.LEFT, true⟩] s).matrix = s.matrix ∧
      (handleKeys fd [⟨InputType.LEFT, true⟩] s).gravity_timer =
        s.gravity_timer ∧
      (handleKeys fd [⟨InputType.LEFT, true⟩] s).gravity_delay =
        s.gravity_delay := by
  unfold handleKeys
  dsimp only
  rw [List.foldl_cons, List.foldl_nil]
  rw [show handleKeyEvent { s with skip_gravity := s.keystates InputType.DOWN && s.previous_keystates InputType.DOWN } ⟨InputType.LEFT, true⟩ = { s with skip_gravity := s.keystates InputType.DOWN && s.previous_keystates InputType.DOWN } from rfl]
  rw [rotationPhase_noAB fd _ (by dsimp only; rw [hAB])]
  obtain ⟨h1, h2, h3, h4, h5, h6, h7⟩ := horizontalPhase_left fd
    { s with skip_gravity := s.keystates InputType.DOWN && s.previous_keystates InputType.DOWN, rotation_timer := s.rotation_timer - fd } p hp hL hR hx hnc
  have hsd := softdropPhase_noDown fd
    (horizontalPhase fd { s with skip_gravity := s.keystates InputType.DOWN && s.previous_keystates InputType.DOWN, rotation_timer := s.rotation_timer - fd })
    (by rw [h5]; exact hDown)
  exact ⟨(congrArg Well.active_piece_x hsd).trans h1,
    (congrArg Well.active_piece hsd).trans h2,
    (congrArg Well.active_piece_y hsd).trans h3,
    (congrArg Well.matrix hsd).trans h4,
    (congrArg Well.gravity_timer hsd).trans h6,
    (congrArg Well.gravity_delay hsd).trans h7⟩

/-- A frame whose only event is a LEFT release while nothing else is held:
input handling restores the DAS accumulator and the non-turbo repeat delay
but merely keeps counting down the repeat timer, and moves nothing. -/
theorem handleKeys_release_left (fd : Int) (s : Well)
    (hL : s.keystates InputType.LEFT = false)
    (hR : s.keystates InputType.RIGHT = false)
    (hDown : s.keystates InputType.DOWN = false)
    (hAB : s.keystates InputType.A = s.keystates InputType.B) :
    (handleKeys fd [⟨InputType.LEFT, false⟩] s).das_timer =
        s.horizontal_delay_normal ∧
      (handleKeys fd [⟨InputType.LEFT, false⟩] s).horizontal_delay_current =
        s.horizontal_delay_normal ∧
      (handleKeys fd [⟨InputType.LEFT, false⟩] s).horizontal_timer =
        s.horizontal_timer - fd ∧
      (handleKeys fd [⟨InputType.LEFT, false⟩] s).active_piece =
        s.active_piece ∧
      (handleKeys fd [⟨InputType.LEFT, false⟩] s).active_piece_x =
        s.active_piece_x ∧
      (handleKeys fd [⟨InputType.LEFT, false⟩] s).active_piece_y =
        s.active_piece_y ∧
      (handleKeys fd [⟨InputType.LEFT, false⟩] s).matrix = s.matrix ∧
      (handleKeys fd [⟨InputType.LEFT, false⟩] s).gravity_timer =
        s.gravity_timer ∧
      (handleKeys fd [⟨InputType.LEFT, false⟩] s).gravity_delay =
        s.gravity_delay := by
  unfold handleKeys
  dsimp only
  rw [List.foldl_cons, List.foldl_nil]
  rw [show handleKeyEvent { s with skip_gravity := s.keystates InputType.DOWN && s.previous_keystates InputType.DOWN } ⟨InputType.LEFT, false⟩ = resetDAS { s with skip_gravity := s.keystates InputType.DOWN && s.previous_keystates InputType.DOWN } from rfl]
  rw [show resetDAS { s with skip_gravity := s.keystates InputType.DOWN && s.previous_keystates InputType.DOWN } = { s with skip_gravity := s.keystates InputType.DOWN && s.previous_keystates InputType.DOWN, das_timer := s.horizontal_delay_normal, horizontal_delay_current := s.horizontal_delay_normal } from rfl]
  rw [rotationPhase_noAB fd _ (by dsimp only; rw [hAB])]
  rw [horizontalPhase_noLR fd _ (by dsimp only; rw [hL, hR])]
  rw [softdropPhase_noDown fd _ (by dsimp only; rw [hDown])]
  exact ⟨rfl, rfl, rfl, rfl, rfl, rfl, rfl, rfl, rfl⟩

/-- When the accrued gravity time stays below one interval and the piece is
airborne, the gravity and lock-delay timers leave the piece and the
auto-repeat fields alone. -/
theorem updateTail_keep (fd : Int) (t : Well) (p : Piece)
    (hp : t.active_piece = some p)
    (hgrav : t.gravity_timer + fd < t.gravity_delay)
    (hg : hasCollisionAt t.matrix p.currentGrid t.active_piece_x
      (t.active_piece_y + 1) = false) :
    (updateTail fd t).active_piece_x = t.active_piece_x ∧
      (updateTail fd t).das_timer = t.das_timer ∧
      (updateTail fd t).horizontal_delay_current =
        t.horizontal_delay_current ∧
      (updateTail fd t).horizontal_timer = t.horizontal_timer := by
  unfold updateTail
  rw [if_neg (by rw [hp]; simp)]
  rw [updateGravity_stop fd t hgrav]
  rw [updateLockDelay_free fd _ (by
    unfold isOnGround
    rw [show ({ t with gravity_timer := t.gravity_timer + fd } :
        Well).active_piece = some p from hp]
    exact hg)]
  exact ⟨rfl, rfl, rfl, rfl⟩

/-- A free right move shifts the piece one column right. -/
theorem moveRightNow_x (s : Well) (p : Piece) (hp : s.active_piece = some p)
    (hx : ¬ s.active_piece_x + 1 ≥ wellWidth)
    (hnc : hasCollisionAt s.matrix p.currentGrid (s.active_piece_x + 1)
      s.active_piece_y = false) :
    (moveRightNow s).active_piece_x = s.active_piece_x + 1 := by
  unfold moveRightNow
  rw [hp]
  dsimp only
  rw [if_neg hx]
  rw [if_pos (show ¬ hasCollisionAt s.matrix p.currentGrid
      (s.active_piece_x + 1) s.active_piece_y = true from
    by rw [Bool.not_eq_true]; exact hnc)]
  exact (afterMoveSuccess_pres
    { s with active_piece := some p,
             active_piece_x := s.active_piece_x + 1 }).2.1

/-- A right move touches neither the board nor the gravity fields. -/
theorem moveRightNow_keep (s : Well) :
    (moveRightNow s).matrix = s.matrix ∧
      (moveRightNow s).gravity_timer = s.gravity_timer ∧
      (moveRightNow s).gravity_delay = s.gravity_delay := by
  unfold moveRightNow
  cases s.active_piece with
  | none => exact ⟨rfl, rfl, rfl⟩
  | some p =>
      dsimp only
      split_ifs <;>
        first
          | exact ⟨rfl, rfl, rfl⟩
          | (obtain ⟨hm, hg1, hg2, _, _, _, _⟩ := afterMoveSuccess_keep
              { s with active_piece := some p,
                       active_piece_x := s.active_piece_x + 1 }
             exact ⟨hm, hg1, hg2⟩)

/-- With only RIGHT held over a free destination, the horizontal phase moves
the piece exactly when its repeat countdown has expired, and touches
nothing else that the rest of the frame observes. -/
theorem horizontalPhase_right (fd : Int) (s : Well) (p : Piece)
    (hp : s.active_piece = some p)
    (hL : s.keystates InputType.LEFT = false)
    (hRt : s.keystates InputType.RIGHT = true)
    (hx : ¬ s.active_piece_x + 1 ≥ wellWidth)
    (hnc : hasCollisionAt s.matrix p.currentGrid (s.active_piece_x + 1)
      s.active_piece_y = false) :
    (horizontalPhase fd s).active_piece_x =
        (if s.horizontal_timer - fd ≤ 0 then s.active_piece_x + 1
         else s.active_piece_x) ∧
      (horizontalPhase fd s).active_piece = s.active_piece ∧
      (horizontalPhase fd s).active_piece_y = s.active_piece_y ∧
      (horizontalPhase fd s).matrix = s.matrix ∧
      (horizontalPhase fd s).keystates = s.keystates ∧
      (horizontalPhase fd s).gravity_timer = s.gravity_timer ∧
      (horizontalPhase fd s).gravity_delay = s.gravity_delay := by
  unfold horizontalPhase
  dsimp only
  by_cases ht : s.horizontal_timer - fd ≤ 0
  · rw [if_pos ht, if_pos ht]
    rw [if_pos (show s.keystates InputType.LEFT ≠
        s.keystates InputType.RIGHT from by rw [hL, hRt]; decide)]
    rw [if_neg (show ¬ s.keystates InputType.LEFT = true from
      by rw [hL]; exact Bool.false_ne_true)]
    have hmrx := moveRightNow_x
      { s with horizontal_timer := s.horizontal_timer - fd } p hp hx hnc
    obtain ⟨hph, hmry, hmrap⟩ := moveRightNow_pres
      { s with horizontal_timer := s.horizontal_timer - fd }
    obtain ⟨hmrm, hmrgt, hmrgd⟩ := moveRightNow_keep
      { s with horizontal_timer := s.horizontal_timer - fd }
    split_ifs with hdas <;>
      exact ⟨hmrx, hmrap, hmry, hmrm, hph.2.1, hmrgt, hmrgd⟩
  · rw [if_neg ht, if_neg ht]
    exact ⟨rfl, rfl, rfl, rfl, rfl, rfl, rfl⟩

/-- A frame whose only event is a RIGHT press: input handling moves the
piece one column right exactly when the repeat countdown has expired, and
leaves the board and gravity bookkeeping alone. -/
theorem handleKeys_press_right (fd : Int) (s : Well) (p : Piece)
    (hp : s.active_piece = some p)
    (hL : s.keystates InputType.LEFT = false)
    (hRt : s.keystates InputType.RIGHT = true)
    (hDown : s.keystates InputType.DOWN = false)
    (hAB : s.keystates InputType.A = s.keystates InputType.B)
    (hx : ¬ s.active_piece_x + 1 ≥ wellWidth)
    (hnc : hasCollisionAt s.matrix p.currentGrid (s.active_piece_x + 1)
      s.active_piece_y = false) :
    (handleKeys fd [⟨InputType.RIGHT, true⟩] s).active_piece_x =
        (if s.horizontal_timer - fd ≤ 0 then s.active_piece_x + 1
         else s.active_piece_x) ∧
      (handleKeys fd [⟨InputType.RIGHT, true⟩] s).active_piece =
        s.active_piece ∧
      (handleKeys fd [⟨InputType.RIGHT, true⟩] s).active_piece_y =
        s.active_piece_y ∧
      (handleKeys fd [⟨InputType.RIGHT, true⟩] s).matrix = s.matrix ∧
      (handleKeys fd [⟨InputType.RIGHT, true⟩] s).gravity_timer =
        s.gravity_timer ∧
      (handleKeys fd [⟨InputType.RIGHT, true⟩] s).gravity_delay =
        s.gravity_delay := by
  unfold handleKeys
  dsimp only
  rw [List.foldl_cons, List.foldl_nil]
  rw [show handleKeyEvent { s with skip_gravity := s.keystates InputType.DOWN && s.previous_keystates InputType.DOWN } ⟨InputType.RIGHT, true⟩ = { s with skip_gravity := s.keystates InputType.DOWN && s.previous_keystates InputType.DOWN } from rfl]
  rw [rotationPhase_noAB fd _ (by dsimp only; rw [hAB])]
  obtain ⟨h1, h2, h3, h4, h5, h6, h7⟩ := horizontalPhase_right fd
    { s with skip_gravity := s.keystates InputType.DOWN && s.previous_keystates InputType.DOWN, rotation_timer := s.rotation_timer - fd } p hp hL hRt hx hnc
  have hsd := softdropPhase_noDown fd
    (horizontalPhase fd { s with skip_gravity := s.keystates InputType.DOWN && s.previous_keystates InputType.DOWN, rotation_timer := s.rotation_timer - fd })
    (by rw [h5]; exact hDown)
  exact ⟨(congrArg Well.active_piece_x hsd).trans h1,
    (congrArg Well.active_piece hsd).trans h2,
    (congrArg Well.active_piece_y hsd).trans h3,
    (congrArg Well.matrix hsd).trans h4,
    (congrArg Well.gravity_timer hsd).trans h6,
    (congrArg Well.gravity_delay hsd).trans h7⟩

/-- A frame whose only event is a RIGHT release while nothing else is held:
input handling restores the DAS accumulator and the non-turbo repeat delay
but merely keeps counting down the repeat timer, and moves nothing. -/
theorem handleKeys_release_right (fd : Int) (s : Well)
    (hL : s.keystates InputType.LEFT = false)
    (hR : s.keystates InputType.RIGHT = false)
    (hDown : s.keystates InputType.DOWN = false)
    (hAB : s.keystates InputType.A = s.keystates InputType.B) :
    (handleKeys fd [⟨InputType.RIGHT, false⟩] s).das_timer =
        s.horizontal_delay_normal ∧
      (handleKeys fd [⟨InputType.RIGHT, false⟩] s).horizontal_delay_current =
        s.horizontal_delay_normal ∧
      (handleKeys fd [⟨InputType.RIGHT, false⟩] s).horizontal_timer =
        s.horizontal_timer - fd ∧
      (handleKeys fd [⟨InputType.RIGHT, false⟩] s).active_piece =
        s.active_piece ∧
      (handleKeys fd [⟨InputType.RIGHT, false⟩] s).active_piece_x =
        s.active_piece_x ∧
      (handleKeys fd [⟨InputType.RIGHT, false⟩] s).active_piece_y =
        s.active_piece_y ∧
      (handleKeys fd [⟨InputType.RIGHT, false⟩] s).matrix = s.matrix ∧
      (handleKeys fd [⟨InputType.RIGHT, false⟩] s).gravity_timer =
        s.gravity_timer ∧
      (handleKeys fd [⟨InputType.RIGHT, false⟩] s).gravity_delay =
        s.gravity_delay := by
  unfold handleKeys
  dsimp only
  rw [List.foldl_cons, List.foldl_nil]
  rw [show handleKeyEvent { s with skip_gravity := s.keystates InputType.DOWN && s.previous_keystates InputType.DOWN } ⟨InputType.RIGHT, false⟩ = resetDAS { s with skip_gravity := s.keystates InputType.DOWN && s.previous_keystates InputType.DOWN } from rfl]
  rw [show resetDAS { s with skip_gravity := s.keystates InputType.DOWN && s.previous_keystates InputType.DOWN } = { s with skip_gravity := s.keystates InputType.DOWN && s.previous_keystates InputType.DOWN, das_timer := s.horizontal_delay_normal, horizontal_delay_current := s.horizontal_delay_normal } from rfl]
  rw [rotationPhase_noAB fd _ (by dsimp only; rw [hAB])]
  rw [horizontalPhase_noLR fd _ (by dsimp only; rw [hL, hR])]
  rw [softdropPhase_noDown fd _ (by dsimp only; rw [hDown])]
  exact ⟨rfl, rfl, rfl, rfl, rfl, rfl, rfl, rfl, rfl⟩

/-- C4: Corrected. Gravity is indeed suppressed for the frame whenever the
skip flag is set, and holding DOWN continuously makes the piece descend at
the soft-drop rate with gravity contributing nothing; but the skip flag is
not equivalent to "soft drop or hard drop moved the piece down this frame":
it is also set when DOWN is merely held across consecutive frames or when
UP, the hard-drop button or the hold button is pressed, even if no downward
move results (see the counterexample). -/
theorem C4_down_held_softdrop_rate (fd : Int) (s : Well) (p : Piece)
    (hgo : s.gameover = false)
    (hpend : s.pending_cleared_rows = ∅)
    (hp : s.active_piece = some p)
    (hdown : s.keystates InputType.DOWN = true)
    (hAB : s.keystates InputType.A = s.keystates InputType.B)
    (hLR : s.keystates InputType.LEFT = s.keystates InputType.RIGHT)
    (hy : s.active_piece_y + 1 < wellHeight)
    (hnc : hasCollisionAt s.matrix p.currentGrid s.active_piece_x
      (s.active_piece_y + 1) = false) :
    (∀ t : Well, t.skip_gravity = true →
        (updateGravity fd t).active_piece_y = t.active_piece_y) ∧
      (update fd [] s).active_piece_y =
        s.active_piece_y + (if s.softdrop_timer - fd ≤ 0 then 1 else 0) :=
  ⟨fun t ht => (updateGravity_skipped fd t ht).1,
   update_down_held fd s p hgo hpend hp hdown hAB hLR hy hnc⟩

/-- C4 witness: with DOWN held over a free piece and an expired soft-drop
countdown, the frame moves the piece exactly one row down. -/
theorem C4_down_held_softdrop_rate_witness :
    (update 1 [] c4DownWell).active_piece_y = 6 := by
  have h := (C4_down_held_softdrop_rate 1 c4DownWell exDotPiece rfl rfl rfl
    (by decide) rfl rfl (by decide) (by decide)).2
  rw [h]
  decide

/-- C4 counterexample: a frame in which the gravity timer completes a full
interval and neither soft drop nor hard drop moves the piece (its row is
unchanged and it stays active), yet no gravity step is applied either — the
hold press alone skipped gravity, refuting the claimed equivalence. -/
theorem C4_skip_without_drop_counterexample :
    c4HoldWell.gravity_delay ≤ c4HoldWell.gravity_timer + 1 ∧
      (update 1 [⟨InputType.GAME_HOLD, true⟩] c4HoldWell).active_piece_y =
        c4HoldWell.active_piece_y ∧
      (update 1 [⟨InputType.GAME_HOLD, true⟩]
          c4HoldWell).active_piece.isSome = true := by
  decide

/-- C9: Corrected. A press of either horizontal direction moves the piece
within that frame exactly when the horizontal repeat countdown has already
expired — not unconditionally — and releasing either direction resets only
the DAS accumulator and the (non-turbo) repeat delay; the repeat countdown
itself keeps running and is not reset by the release. -/
theorem C9_first_press_and_release (fd : Int) (s : Well) (p : Piece)
    (hgo : s.gameover = false)
    (hpend : s.pending_cleared_rows = ∅)
    (hp : s.active_piece = some p)
    (hAB : s.keystates InputType.A = s.keystates InputType.B)
    (hLkey : s.keystates InputType.LEFT = false)
    (hR : s.keystates InputType.RIGHT = false)
    (hDown : s.keystates InputType.DOWN = false)
    (hxL : ¬ s.active_piece_x - 1 ≤ -3)
    (hncL : hasCollisionAt s.matrix p.currentGrid (s.active_piece_x - 1)
      s.active_piece_y = false)
    (hxR : ¬ s.active_piece_x + 1 ≥ wellWidth)
    (hncR : hasCollisionAt s.matrix p.currentGrid (s.active_piece_x + 1)
      s.active_piece_y = false)
    (hgrav : s.gravity_timer + fd < s.gravity_delay)
    (hg1 : hasCollisionAt s.matrix p.currentGrid (s.active_piece_x - 1)
      (s.active_piece_y + 1) = false)
    (hg2 : hasCollisionAt s.matrix p.currentGrid s.active_piece_x
      (s.active_piece_y + 1) = false)
    (hg3 : hasCollisionAt s.matrix p.currentGrid (s.active_piece_x + 1)
      (s.active_piece_y + 1) = false) :
    ((update fd [⟨InputType.LEFT, true⟩] s).active_piece_x =
        if s.horizontal_timer - fd ≤ 0 then s.active_piece_x - 1
        else s.active_piece_x) ∧
      ((update fd [⟨InputType.RIGHT, true⟩] s).active_piece_x =
        if s.horizontal_timer - fd ≤ 0 then s.active_piece_x + 1
        else s.active_piece_x) ∧
      ((update fd [⟨InputType.LEFT, false⟩] s).das_timer =
          s.horizontal_delay_normal ∧
        (update fd [⟨InputType.LEFT, false⟩] s).horizontal_delay_current =
          s.horizontal_delay_normal ∧
        (update fd [⟨InputType.LEFT, false⟩] s).horizontal_timer =
          s.horizontal_timer - fd) ∧
      ((update fd [⟨InputType.RIGHT, false⟩] s).das_timer =
          s.horizontal_delay_normal ∧
        (update fd [⟨InputType.RIGHT, false⟩] s).horizontal_delay_current =
          s.horizontal_delay_normal ∧
        (update fd [⟨InputType.RIGHT, false⟩] s).horizontal_timer =
          s.horizontal_timer - fd) := by
  refine ⟨?_, ?_, ?_, ?_⟩
  · simp only [update, hgo, Bool.false_eq_true, if_false]
    rw [if_neg (by simp [hpend])]
    obtain ⟨k1, k2, k3, k4, k5, k6⟩ := handleKeys_press_left fd
      (updateKeystate [⟨InputType.LEFT, true⟩] { s with gameover := false, animations := tickAnims fd s.animations, blocking_anims := tickAnims fd s.blocking_anims }) p hp rfl hR hDown hAB hxL hncL
    obtain ⟨t1, t2, t3, t4⟩ := updateTail_keep fd
      (handleKeys fd [⟨InputType.LEFT, true⟩]
        (updateKeystate [⟨InputType.LEFT, true⟩] { s with gameover := false, animations := tickAnims fd s.animations, blocking_anims := tickAnims fd s.blocking_anims })) p
      (k2.trans hp)
      (by rw [k5, k6]; exact hgrav)
      (by rw [k4, k3, k1]
          split_ifs with hht
          · exact hg1
          · exact hg2)
    exact t1.trans k1
  · simp only [update, hgo, Bool.false_eq_true, if_false]
    rw [if_neg (by simp [hpend])]
    obtain ⟨k1, k2, k3, k4, k5, k6⟩ := handleKeys_press_right fd
      (updateKeystate [⟨InputType.RIGHT, true⟩] { s with gameover := false, animations := tickAnims fd s.animations, blocking_anims := tickAnims fd s.blocking_anims }) p hp hLkey rfl hDown hAB hxR hncR
    obtain ⟨t1, t2, t3, t4⟩ := updateTail_keep fd
      (handleKeys fd [⟨InputType.RIGHT, true⟩]
        (updateKeystate [⟨InputType.RIGHT, true⟩] { s with gameover := false, animations := tickAnims fd s.animations, blocking_anims := tickAnims fd s.blocking_anims })) p
      (k2.trans hp)
      (by rw [k5, k6]; exact hgrav)
      (by rw [k4, k3, k1]
          split_ifs with hht
          · exact hg3
          · exact hg2)
    exact t1.trans k1
  · simp only [update, hgo, Bool.false_eq_true, if_false]
    rw [if_neg (by simp [hpend])]
    obtain ⟨m1, m2, m3, m4, m5, m6, m7, m8, m9⟩ := handleKeys_release_left fd
      (updateKeystate [⟨InputType.LEFT, false⟩] { s with gameover := false, animations := tickAnims fd s.animations, blocking_anims := tickAnims fd s.blocking_anims }) rfl hR hDown hAB
    obtain ⟨r1, r2, r3, r4⟩ := updateTail_keep fd
      (handleKeys fd [⟨InputType.LEFT, false⟩]
        (updateKeystate [⟨InputType.LEFT, false⟩] { s with gameover := false, animations := tickAnims fd s.animations, blocking_anims := tickAnims fd s.blocking_anims })) p
      (m4.trans hp)
      (by rw [m8, m9]; exact hgrav)
      (by rw [m7, m5, m6]; exact hg2)
    exact ⟨r2.trans m1, r3.trans m2, r4.trans m3⟩
  · simp only [update, hgo, Bool.false_eq_true, if_false]
    rw [if_neg (by simp [hpend])]
    obtain ⟨m1, m2, m3, m4, m5, m6, m7, m8, m9⟩ := handleKeys_release_right fd
      (updateKeystate [⟨InputType.RIGHT, false⟩] { s with gameover := false, animations := tickAnims fd s.animations, blocking_anims := tickAnims fd s.blocking_anims }) hLkey rfl hDown hAB
    obtain ⟨r1, r2, r3, r4⟩ := updateTail_keep fd
      (handleKeys fd [⟨InputType.RIGHT, false⟩]
        (updateKeystate [⟨InputType.RIGHT, false⟩] { s with gameover := false, animations := tickAnims fd s.animations, blocking_anims := tickAnims fd s.blocking_anims })) p
      (m4.trans hp)
      (by rw [m8, m9]; exact hgrav)
      (by rw [m7, m5, m6]; exact hg2)
    exact ⟨r2.trans m1, r3.trans m2, r4.trans m3⟩

/-- C9 witness: with the repeat countdown already expired, a LEFT or RIGHT
press moves the piece that frame, and releasing either direction restores
the DAS fields while the repeat countdown merely keeps counting. -/
theorem C9_first_press_and_release_witness :
    (update 1 [⟨InputType.LEFT, true⟩] c9Well).active_piece_x = 2 ∧
      (update 1 [⟨InputType.RIGHT, true⟩] c9Well).active_piece_x = 4 ∧
      (update 1 [⟨InputType.LEFT, false⟩] c9Well).das_timer = 14 ∧
      (update 1 [⟨InputType.LEFT, false⟩] c9Well).horizontal_timer = -1 ∧
      (update 1 [⟨InputType.RIGHT, false⟩] c9Well).das_timer = 14 ∧
      (update 1 [⟨InputType.RIGHT, false⟩] c9Well).horizontal_timer = -1 := by
  obtain ⟨h1, h2, h3, h4⟩ := C9_first_press_and_release 1 c9Well exDotPiece
    rfl rfl rfl rfl rfl rfl rfl (by decide) (by decide) (by decide)
    (by decide) (by decide) (by decide) (by decide) (by decide)
  refine ⟨?_, ?_, ?_, ?_, ?_, ?_⟩
  · rw [h1]; decide
  · rw [h2]; decide
  · rw [h3.1]; decide
  · rw [h3.2.2]; decide
  · rw [h4.1]; decide
  · rw [h4.2.2]; decide

/-- C9 counterexample: a LEFT press that moves the piece re-arms the repeat
countdown; a full release then resets the DAS accumulator but not the
countdown, so a fresh first press two frames later does not move the piece
at all — refuting both "a first press moves immediately" and "releasing
resets the repeat timer". -/
theorem C9_stale_timer_counterexample :
    (update 1 [⟨InputType.LEFT, true⟩] c9Well).active_piece_x = 2 ∧
      (update 1 [⟨InputType.LEFT, false⟩]
          (update 1 [⟨InputType.LEFT, true⟩] c9Well)).das_timer = 14 ∧
      (update 1 [⟨InputType.LEFT, false⟩]
          (update 1 [⟨InputType.LEFT, true⟩] c9Well)).horizontal_timer =
        13 ∧
      (update 1 [⟨InputType.LEFT, true⟩]
          (update 1 [⟨InputType.LEFT, false⟩]
            (update 1 [⟨InputType.LEFT, true⟩] c9Well))).active_piece_x =
        2 := by
  decide

end OpenBlok
